import Mathlib

/-!
Verification of the fingerprint server core: the identity-token layer,
the crowd-blending trust scorer, the multi-layer matching engine and the
submission validation schema, shallowly embedded from
`packages/server/src/services/identity.ts`,
`packages/server/src/services/crowd-blending.ts` and
`packages/server/src/routes/fingerprint.ts`.

Strings of the TypeScript source are modelled as `List Char`; machine
floats as `ℚ` (the arithmetic involved is exact decimal arithmetic);
databases as explicit lists kept most-recent-first; fallible operations
as `Option`.
-/

namespace Fingerprint

set_option maxRecDepth 200000

/-- Strings of the source are modelled as lists of characters. -/
abbrev Str := List Char

/-! ## Hash primitives

`hammingDistance` is embedded from `identity.ts` (services/matching):
it throws on length mismatch, modelled as `Option`. -/

/-- `hammingDistance(s1, s2)` from `identity.ts`: `none` models the thrown
`Error` on length mismatch, otherwise the count of differing positions. -/
def hammingDistance (s1 s2 : Str) : Option Nat :=
  if s1.length ≠ s2.length then none
  else some ((List.zip s1 s2).countP (fun p => p.1 ≠ p.2))

/-! ## SHA-256 and HMAC-SHA256

Modelled from the spec: §4.A names `sha256(bytes) -> hex64` and
`hmac_sha256(key, message) -> hex64` as the hash primitives; the
implementation lives in `node:crypto`, outside the repository, so the
standard FIPS 180-4 SHA-256 and RFC 2104 HMAC are embedded here.
Bytes are `Nat` values below 256, 32-bit words are `Nat` reduced
modulo `2 ^ 32`. -/

/-- The SHA-256 round constants. -/
def shaK : List Nat :=
  [1116352408, 1899447441, 3049323471, 3921009573, 961987163,
   1508970993, 2453635748, 2870763221, 3624381080, 310598401,
   607225278, 1426881987, 1925078388, 2162078206, 2614888103,
   3248222580, 3835390401, 4022224774, 264347078, 604807628,
   770255983, 1249150122, 1555081692, 1996064986, 2554220882,
   2821834349, 2952996808, 3210313671, 3336571891, 3584528711,
   113926993, 338241895, 666307205, 773529912, 1294757372,
   1396182291, 1695183700, 1986661051, 2177026350, 2456956037,
   2730485921, 2820302411, 3259730800, 3345764771, 3516065817,
   3600352804, 4094571909, 275423344, 430227734, 506948616,
   659060556, 883997877, 958139571, 1322822218, 1537002063,
   1747873779, 1955562222, 2024104815, 2227730452, 2361852424,
   2428436474, 2756734187, 3204031479, 3329325298]

/-- The SHA-256 initial hash state. -/
def shaH0 : List Nat :=
  [1779033703, 3144134277, 1013904242, 2773480762,
   1359893119, 2600822924, 528734635, 1541459225]

/-- Right rotation of a 32-bit word. -/
def rotr32 (n x : Nat) : Nat :=
  ((x >>> n) ||| (x <<< (32 - n))) % 2 ^ 32

/-- Bitwise complement of a 32-bit word. -/
def not32 (x : Nat) : Nat := x ^^^ 0xffffffff

/-- SHA-256 big sigma 0. -/
def bsig0 (x : Nat) : Nat := rotr32 2 x ^^^ rotr32 13 x ^^^ rotr32 22 x

/-- SHA-256 big sigma 1. -/
def bsig1 (x : Nat) : Nat := rotr32 6 x ^^^ rotr32 11 x ^^^ rotr32 25 x

/-- SHA-256 small sigma 0. -/
def ssig0 (x : Nat) : Nat := rotr32 7 x ^^^ rotr32 18 x ^^^ ((x >>> 3) % 2 ^ 32)

/-- SHA-256 small sigma 1. -/
def ssig1 (x : Nat) : Nat := rotr32 17 x ^^^ rotr32 19 x ^^^ ((x >>> 10) % 2 ^ 32)

/-- SHA-256 choice function. -/
def shaCh (x y z : Nat) : Nat := (x &&& y) ^^^ (not32 x &&& z)

/-- SHA-256 majority function. -/
def shaMaj (x y z : Nat) : Nat := (x &&& y) ^^^ (x &&& z) ^^^ (y &&& z)

/-- Extend a 16-word block once: append the next schedule word. -/
def extendOnce (w : List Nat) : List Nat :=
  let n := w.length
  w ++ [(ssig1 (w.getD (n - 2) 0) + w.getD (n - 7) 0 +
         ssig0 (w.getD (n - 15) 0) + w.getD (n - 16) 0) % 2 ^ 32]

/-- Extend a 16-word block to the full 64-word message schedule. -/
def schedule (w : List Nat) : List Nat :=
  Nat.rec w (fun _ acc => extendOnce acc) 48

/-- One SHA-256 compression round over the 8-word working state. -/
def shaRound (st : List Nat) (kw : Nat × Nat) : List Nat :=
  match st with
  | [a, b, c, d, e, f, g, h] =>
    let t1 := (h + bsig1 e + shaCh e f g + kw.1 + kw.2) % 2 ^ 32
    let t2 := (bsig0 a + shaMaj a b c) % 2 ^ 32
    [(t1 + t2) % 2 ^ 32, a, b, c, (d + t1) % 2 ^ 32, e, f, g]
  | st => st

/-- Compress one 16-word block into the running hash state. -/
def compress (h : List Nat) (block : List Nat) : List Nat :=
  let w := schedule block
  let st := (shaK.zip w).foldl shaRound h
  (h.zip st).map (fun p => (p.1 + p.2) % 2 ^ 32)

/-- Split a byte list into 32-bit big-endian words (length divisible by 4). -/
def bytesToWords : List Nat → List Nat
  | b0 :: b1 :: b2 :: b3 :: rest =>
    (b0 * 2 ^ 24 + b1 * 2 ^ 16 + b2 * 2 ^ 8 + b3) :: bytesToWords rest
  | _ => []

/-- Split a word list into 16-word blocks (the padded input is always a
multiple of 16 words). -/
def toBlocks : List Nat → List (List Nat)
  | w0 :: w1 :: w2 :: w3 :: w4 :: w5 :: w6 :: w7 ::
    w8 :: w9 :: w10 :: w11 :: w12 :: w13 :: w14 :: w15 :: rest =>
    [w0, w1, w2, w3, w4, w5, w6, w7, w8, w9, w10, w11, w12, w13, w14, w15] ::
      toBlocks rest
  | _ => []

/-- SHA-256 padding: `0x80`, zeros to 56 mod 64, 8-byte big-endian bit length. -/
def shaPad (msg : List Nat) : List Nat :=
  let padZeros := (119 - msg.length % 64) % 64
  let bitLen := msg.length * 8
  msg ++ [0x80] ++ List.replicate padZeros 0 ++
    [bitLen / 2 ^ 56 % 256, bitLen / 2 ^ 48 % 256, bitLen / 2 ^ 40 % 256,
     bitLen / 2 ^ 32 % 256, bitLen / 2 ^ 24 % 256, bitLen / 2 ^ 16 % 256,
     bitLen / 2 ^ 8 % 256, bitLen % 256]

/-- Turn a 32-bit word into 4 big-endian bytes. -/
def wordBytes (w : Nat) : List Nat :=
  [w / 2 ^ 24 % 256, w / 2 ^ 16 % 256, w / 2 ^ 8 % 256, w % 256]

/-- SHA-256 of a byte list, as 32 bytes. -/
def sha256 (msg : List Nat) : List Nat :=
  let blocks := toBlocks (bytesToWords (shaPad msg))
  (blocks.foldl compress shaH0).flatMap wordBytes

/-- HMAC-SHA256 (RFC 2104) of a byte list, as 32 bytes. -/
def hmacSha256 (key msg : List Nat) : List Nat :=
  let k0 := if key.length > 64 then sha256 key else key
  let kPad := k0 ++ List.replicate (64 - k0.length) 0
  let ipad := kPad.map (fun b => b ^^^ 0x36)
  let opad := kPad.map (fun b => b ^^^ 0x5c)
  sha256 (opad ++ sha256 (ipad ++ msg))

/-- Lowercase hex digit for a nibble. -/
def hexDigitCh (n : Nat) : Char :=
  match n with
  | 0 => '0' | 1 => '1' | 2 => '2' | 3 => '3' | 4 => '4' | 5 => '5'
  | 6 => '6' | 7 => '7' | 8 => '8' | 9 => '9' | 10 => 'a' | 11 => 'b'
  | 12 => 'c' | 13 => 'd' | 14 => 'e' | 15 => 'f' | _ => '0'

/-- Lowercase hex encoding of a byte list (`digest('hex')`). -/
def toHexStr (bytes : List Nat) : Str :=
  bytes.flatMap (fun b => [hexDigitCh (b / 16), hexDigitCh (b % 16)])

/-- UTF-8 bytes of an ASCII string (all inputs here are ASCII). -/
def strBytes (s : Str) : List Nat := s.map (fun c => c.toNat % 256)

/-! ## Persistent-identity tokens

Embedded from `services/identity.ts` lines 15–206. `Date.now()` is the
explicit parameter `now`; signatures and tokens are `Str`. -/

/-- `IDENTITY_SECRET` of `identity.ts` (the default value). -/
def IDENTITY_SECRET : Str :=
  "fingerprint-identity-secret-change-in-production".toList

/-- `SIGNATURE_LENGTH` of `identity.ts`. -/
def SIGNATURE_LENGTH : Nat := 16

/-- `signVisitorId`: first 16 hex chars of `HMAC_SHA256(secret, visitorId)`. -/
def signVisitorId (visitorId : Str) : Str :=
  (toHexStr (hmacSha256 (strBytes IDENTITY_SECRET) (strBytes visitorId))).take
    SIGNATURE_LENGTH

/-- Value of one hex character, case-insensitive, as Node's hex decoding. -/
def hexVal (c : Char) : Option Nat :=
  if '0' ≤ c ∧ c ≤ '9' then some (c.toNat - '0'.toNat)
  else if 'a' ≤ c ∧ c ≤ 'f' then some (c.toNat - 'a'.toNat + 10)
  else if 'A' ≤ c ∧ c ≤ 'F' then some (c.toNat - 'A'.toNat + 10)
  else none

/-- `Buffer.from(s, 'hex')`: decode hex pairs, stopping at the first invalid
pair; a trailing lone character is dropped. -/
def hexDecodePairs : Str → List Nat
  | c1 :: c2 :: rest =>
    match hexVal c1, hexVal c2 with
    | some a, some b => (16 * a + b) :: hexDecodePairs rest
    | _, _ => []
  | _ => []

/-- `crypto.timingSafeEqual`: `none` models the exception thrown when the
buffer lengths differ. -/
def timingSafeEqual (a b : List Nat) : Option Bool :=
  if a.length ≠ b.length then none else some (a == b)

/-- `verifyVisitorId` of `identity.ts`: guards on empty inputs and the
signature length, then constant-time comparison of the hex-decoded bytes;
the thrown buffer-length error is caught and turned into `false`. -/
def verifyVisitorId (visitorId signature : Str) : Bool :=
  if visitorId.isEmpty || signature.isEmpty ||
      signature.length != SIGNATURE_LENGTH then false
  else
    match timingSafeEqual (hexDecodePairs signature)
        (hexDecodePairs (signVisitorId visitorId)) with
    | none => false
    | some b => b

/-- `String.prototype.split(sep)` for a one-character separator: splits at
every occurrence, keeping empty segments. -/
def splitOnChar (sep : Char) : Str → List Str
  | [] => [[]]
  | c :: rest =>
    match splitOnChar sep rest with
    | [] => [[c]]
    | h :: t => if c = sep then [] :: h :: t else (c :: h) :: t

/-- JS whitespace as skipped by `parseInt` (the forms relevant here). -/
def isJsSpace (c : Char) : Bool :=
  c = ' ' || c = '\t' || c = '\n' || c = '\r'

/-- Decimal digit value. -/
def digitVal (c : Char) : Option Nat :=
  if '0' ≤ c ∧ c ≤ '9' then some (c.toNat - '0'.toNat) else none

/-- Longest prefix of decimal digits, as values. -/
def takeDigits : Str → List Nat
  | [] => []
  | c :: rest =>
    match digitVal c with
    | some d => d :: takeDigits rest
    | none => []

/-- Value of a digit list read most-significant first. -/
def digitsToNat (ds : List Nat) : Nat := ds.foldl (fun acc d => 10 * acc + d) 0

/-- `parseInt(s, 10)`: skip whitespace, optional sign, longest digit prefix;
`none` models `NaN` (no digits). Trailing garbage is ignored. -/
def parseIntBase10 (s : Str) : Option Int :=
  match s.dropWhile isJsSpace with
  | [] => none
  | c :: rest =>
    if c = '-' then
      if (takeDigits rest).isEmpty then none
      else some (-(digitsToNat (takeDigits rest) : Int))
    else if c = '+' then
      if (takeDigits rest).isEmpty then none
      else some (digitsToNat (takeDigits rest) : Int)
    else
      if (takeDigits (c :: rest)).isEmpty then none
      else some (digitsToNat (takeDigits (c :: rest)) : Int)

/-- Result record of `parseSignedVisitorId`. -/
structure ParsedId where
  visitorId : Str
  signature : Str
  createdAt : Int
  valid : Bool
deriving DecidableEq, Repr

/-- `parseSignedVisitorId` of `identity.ts`: requires three dot-separated
parts, nonempty id and signature, and a `parseInt`-accepted timestamp;
`none` models the `null` return. -/
def parseSignedVisitorId (signedId : Str) : Option ParsedId :=
  if signedId.isEmpty then none
  else
    match splitOnChar '.' signedId with
    | [visitorId, signature, timestampStr] =>
      match parseIntBase10 timestampStr with
      | none => none
      | some createdAt =>
        if visitorId.isEmpty || signature.isEmpty then none
        else some ⟨visitorId, signature, createdAt,
          verifyVisitorId visitorId signature⟩
    | _ => none

/-- Decimal digits of a natural number (the JS template interpolation of the
timestamp), fuel-based so that it reduces in the kernel. -/
def natToDecCore : Nat → Nat → Str → Str
  | 0, _, acc => acc
  | fuel + 1, n, acc =>
    let acc1 := hexDigitCh (n % 10) :: acc
    if n < 10 then acc1 else natToDecCore fuel (n / 10) acc1

/-- Decimal representation of a natural number. -/
def natToDec (n : Nat) : Str := natToDecCore (n + 1) n []

/-- Decimal digits of a natural number, by well-founded recursion (the
proof-side companion of `natToDec`). -/
def digitsOfNat (n : Nat) : Str :=
  if _h : n < 10 then [hexDigitCh n]
  else digitsOfNat (n / 10) ++ [hexDigitCh (n % 10)]
termination_by n
decreasing_by exact Nat.div_lt_self (by omega) (by norm_num)

/-- `createSignedVisitorId`: `visitorId.signature.timestamp`. -/
def createSignedVisitorId (visitorId : Str) (now : Nat) : Str :=
  visitorId ++ '.' :: signVisitorId visitorId ++ '.' :: natToDec now

/-- Default `maxAge`: 365 days in milliseconds. -/
def IDENTITY_MAX_AGE : ℚ := 365 * 24 * 60 * 60 * 1000

/-- Result record of `validatePersistentIdentity`. -/
structure IdentityValidation where
  valid : Bool
  visitorId : Option Str
  needsRefresh : Bool
  refreshedId : Option Str
deriving DecidableEq, Repr

/-- `validatePersistentIdentity` of `identity.ts`. Note that an expired token
is still reported `valid`; expiry only feeds `needsRefresh`. -/
def validatePersistentIdentity (signedId : Option Str) (now : Nat)
    (maxAge : ℚ) : IdentityValidation :=
  match signedId with
  | none => ⟨false, none, false, none⟩
  | some sid =>
    if sid.isEmpty then ⟨false, none, false, none⟩
    else
      match parseSignedVisitorId sid with
      | none => ⟨false, none, false, none⟩
      | some parsed =>
        if parsed.valid = false then ⟨false, none, false, none⟩
        else
          let age : ℤ := (now : ℤ) - parsed.createdAt
          let isExpired : Bool := decide ((age : ℚ) > maxAge)
          let needsRefresh : Bool := decide ((age : ℚ) > maxAge / 2)
          ⟨true, some parsed.visitorId, needsRefresh || isExpired,
            if needsRefresh then some (createSignedVisitorId parsed.visitorId now)
            else none⟩

/-- Result record of `linkPersistentIdentity`. -/
structure LinkResult where
  visitorId : Str
  persistentIdValid : Bool
  shouldUpdatePersistent : Bool
  newPersistentId : Option Str
deriving DecidableEq, Repr

/-- `linkPersistentIdentity` of `identity.ts`: a valid token's visitor id
wins; otherwise the fingerprint-matched visitor id is used and a fresh
signed id is issued. -/
def linkPersistentIdentity (persistentId : Option Str)
    (fingerprintVisitorId : Str) (now : Nat) : LinkResult :=
  let validation := validatePersistentIdentity persistentId now IDENTITY_MAX_AGE
  if validation.valid &&
      (match validation.visitorId with
       | some v => !v.isEmpty
       | none => false) then
    ⟨validation.visitorId.getD [], true, validation.needsRefresh,
      validation.refreshedId⟩
  else
    ⟨fingerprintVisitorId, false, true,
      some (createSignedVisitorId fingerprintVisitorId now)⟩

/-! ## Crowd-blending trust scorer

Embedded from `services/crowd-blending.ts`. Sessions are rows of the
store; `Date.now()` is the parameter `now`. -/

/-- Trust levels of `crowd-blending.ts`. -/
inductive TrustLevel where
  | new
  | returning
  | trusted
  | verified
deriving DecidableEq, Repr

/-- Match types of the engine. -/
inductive MatchType where
  | exact
  | stable
  | gpu
  | fuzzyStable
  | fuzzy
  | new
deriving DecidableEq, Repr

/-- A session row (the fields the claims need). -/
structure SessionRow where
  visitorId : Str
  fingerprintId : Nat
  ipAddress : Option Str
  firstSeen : Nat
deriving DecidableEq, Repr

/-- Result record of `calculateCrowdBlendingScore`. -/
structure CrowdBlendingResult where
  score : ℚ
  uniqueIPs : Nat
  visitCount : Nat
  daySpan : Nat
  isTrusted : Bool
  trustLevel : TrustLevel
deriving DecidableEq, Repr

/-- Milliseconds per day. -/
def MS_PER_DAY : Nat := 24 * 60 * 60 * 1000

/-- Seven days in milliseconds. -/
def SEVEN_DAYS_MS : Nat := 7 * 24 * 60 * 60 * 1000

/-- `Math.round`: round half up. -/
def jsRound (q : ℚ) : ℤ := ⌊q + 1 / 2⌋

/-- `Math.round(x * 100) / 100`. -/
def round2 (q : ℚ) : ℚ := (jsRound (q * 100) : ℚ) / 100

/-- `Math.round(x * 1000) / 1000`. -/
def round3 (q : ℚ) : ℚ := (jsRound (q * 1000) : ℚ) / 1000

/-- The visitor's sessions of the last seven days (the prisma query). -/
def recentSessions (sessions : List SessionRow) (visitorId : Str)
    (now : Nat) : List SessionRow :=
  sessions.filter
    (fun s => decide (s.visitorId = visitorId) &&
      decide (now - SEVEN_DAYS_MS ≤ s.firstSeen))

/-- `new Set(sessions.map(ip).filter(nonNull)).size`. -/
def uniqueIPsOf (recent : List SessionRow) : Nat :=
  ((recent.filterMap (fun s => s.ipAddress)).dedup).length

/-- `Math.min` over a nonempty list (head and fold, as the spread call). -/
def minList : List Nat → Nat
  | [] => 0
  | t :: ts => ts.foldl Nat.min t

/-- `Math.max` over a nonempty list. -/
def maxList : List Nat → Nat
  | [] => 0
  | t :: ts => ts.foldl Nat.max t

/-- Visit-count factor of `calculateCrowdBlendingScore`. -/
def visitFactor (visitCount : Nat) : ℚ :=
  if visitCount ≥ 10 then 0.4
  else if visitCount ≥ 5 then 0.3
  else if visitCount ≥ 3 then 0.2
  else if visitCount ≥ 2 then 0.1
  else 0

/-- IP-diversity factor of `calculateCrowdBlendingScore`. -/
def ipFactor (uniqueIPs visitCount : Nat) : ℚ :=
  if uniqueIPs ≥ 3 then 0.4
  else if uniqueIPs ≥ 2 then 0.3
  else if uniqueIPs = 1 ∧ visitCount ≥ 3 then 0.1
  else 0

/-- Time-span factor of `calculateCrowdBlendingScore`. -/
def timeFactor (daySpan : Nat) : ℚ :=
  if daySpan ≥ 5 then 0.2
  else if daySpan ≥ 3 then 0.15
  else if daySpan ≥ 1 then 0.1
  else 0

/-- Body of `calculateCrowdBlendingScore` over the filtered session list. -/
def scoreOfRecent (recent : List SessionRow) : CrowdBlendingResult :=
  if recent.isEmpty then ⟨0, 0, 0, 0, false, TrustLevel.new⟩
  else
    let uniqueIPs := uniqueIPsOf recent
    let timestamps := recent.map (fun s => s.firstSeen)
    let minTime := minList timestamps
    let maxTime := maxList timestamps
    let daySpan := (maxTime - minTime + (MS_PER_DAY - 1)) / MS_PER_DAY
    let visitCount := recent.length
    let score := visitFactor visitCount + ipFactor uniqueIPs visitCount +
      timeFactor daySpan
    let isTrusted : Bool := decide (visitCount ≥ 3 ∧ uniqueIPs ≥ 2)
    let trustLevel :=
      if score ≥ 0.7 then TrustLevel.verified
      else if isTrusted then TrustLevel.trusted
      else if visitCount ≥ 2 then TrustLevel.returning
      else TrustLevel.new
    ⟨round2 score, uniqueIPs, visitCount, daySpan, isTrusted, trustLevel⟩

/-- `calculateCrowdBlendingScore` of `crowd-blending.ts`: the score body
over the visitor's sessions of the last 7 days. -/
def calculateCrowdBlendingScore (sessions : List SessionRow)
    (visitorId : Str) (now : Nat) : CrowdBlendingResult :=
  scoreOfRecent (recentSessions sessions visitorId now)

/-- `shouldTrustMatch` of `crowd-blending.ts`. -/
def shouldTrustMatch (crowdBlending : CrowdBlendingResult)
    (matchType : MatchType) : Bool :=
  match matchType with
  | .new => true
  | .exact => true
  | .stable => true
  | .gpu => true
  | .fuzzyStable => true
  | .fuzzy =>
    decide (crowdBlending.visitCount ≤ 5) || decide (crowdBlending.score ≥ 0.2)

/-- `getConfidenceBoost` of `crowd-blending.ts`. -/
def getConfidenceBoost (crowdBlending : CrowdBlendingResult)
    (matchType : MatchType) : ℚ :=
  match matchType with
  | .new => 0
  | .exact => crowdBlending.score * 0.05
  | .stable => crowdBlending.score * 0.10
  | .gpu => crowdBlending.score * 0.08
  | .fuzzyStable => crowdBlending.score * 0.15
  | .fuzzy => crowdBlending.score * 0.20

/-- `applyMatchValidation` of `identity.ts` (services/matching): returns the
final confidence and the crowd-blending result. -/
def applyMatchValidation (sessions : List SessionRow) (visitorId : Str)
    (matchType : MatchType) (baseConfidence : ℚ) (now : Nat) :
    ℚ × CrowdBlendingResult :=
  let crowdBlending := calculateCrowdBlendingScore sessions visitorId now
  if !shouldTrustMatch crowdBlending matchType then
    (baseConfidence * 0.7, crowdBlending)
  else
    let boost := getConfidenceBoost crowdBlending matchType
    let adjustedConfidence := min 1 (baseConfidence + boost)
    (round3 adjustedConfidence, crowdBlending)

/-! ## Matching engine

Embedded from `matchFingerprint` of `identity.ts` (services/matching,
lines 469–765). The store is an explicit record of lists kept
most-recent-first; the six early-return layers become a chain of `Option`
matches. -/

/-- A fingerprint row (the fields the claims need). -/
structure FpRow where
  id : Nat
  visitorId : Str
  fingerprintHash : Str
  fuzzyHash : Str
  stableHash : Option Str
  gpuTimingHash : Option Str
  confidence : ℚ
  isFarbled : Bool
deriving DecidableEq, Repr

/-- The store: fingerprints and sessions most-recent-first, the visitors,
and counters supplying fresh ids. -/
structure Db where
  fingerprints : List FpRow
  sessions : List SessionRow
  visitors : List Str
  nextFpId : Nat
  nextVisitorNum : Nat
deriving DecidableEq, Repr

/-- `components.gpuTiming.data` as read by the engine. -/
structure GpuTimingData where
  supported : Option Bool
  gpuScore : Option ℚ
deriving DecidableEq, Repr

/-- The submission fields the engine consumes. -/
structure FingerprintInput where
  fingerprint : Str
  fuzzyHash : Str
  stableHash : Option Str
  gpuTimingHash : Option Str
  gpuTiming : Option GpuTimingData
  isFarbled : Option Bool
  ipAddress : Option Str
deriving DecidableEq, Repr

/-- JS truthiness of an optional string. -/
def truthyStr : Option Str → Bool
  | none => false
  | some s => !s.isEmpty

/-- `isGpuTimingValid` of `matchFingerprint`: the hash is usable only when
present, `supported === true` and `(gpuScore ?? 0) > 0.1`. -/
def isGpuTimingValid (inp : FingerprintInput) : Bool :=
  truthyStr inp.gpuTimingHash &&
  (match inp.gpuTiming with
   | some d => d.supported == some true
   | none => false) &&
  decide ((match inp.gpuTiming with
           | some d => d.gpuScore.getD 0
           | none => 0) > (0.1 : ℚ))

/-- `validatedGpuTimingHash`: the raw hash when usable, otherwise null. -/
def validatedGpuHash (inp : FingerprintInput) : Option Str :=
  if isGpuTimingValid inp then inp.gpuTimingHash else none

/-- The running best match of a fuzzy scan loop. -/
structure BestMatch where
  id : Nat
  visitorId : Str
  distance : Nat
deriving DecidableEq, Repr

/-- One iteration of a fuzzy scan loop: skip on length mismatch, accept
within threshold, keep the strictly smaller distance. -/
def scanStep (target : Str) (threshold : Nat) (best : Option BestMatch)
    (c : Nat × Str × Str) : Option BestMatch :=
  match hammingDistance c.2.2 target with
  | none => best
  | some distance =>
    if distance ≤ threshold then
      match best with
      | none => some ⟨c.1, c.2.1, distance⟩
      | some b => if distance < b.distance then some ⟨c.1, c.2.1, distance⟩
                  else some b
    else best

/-- The whole fuzzy scan loop over a candidate window. -/
def scanBest (target : Str) (threshold : Nat)
    (cands : List (Nat × Str × Str)) : Option BestMatch :=
  cands.foldl (scanStep target threshold) none

/-- Candidate window of layer 5: the 1000 most recent rows, keyed by
`fuzzyHash`. -/
def fuzzyCands (db : Db) : List (Nat × Str × Str) :=
  (db.fingerprints.take 1000).map (fun r => (r.id, r.visitorId, r.fuzzyHash))

/-- Candidate window of layer 4: the 500 most recent rows with a non-null
`stableHash` (the prisma filter runs before the take); the loop's own
truthiness check drops empty-string hashes. -/
def stableCands (db : Db) : List (Nat × Str × Str) :=
  ((db.fingerprints.filter (fun r => r.stableHash != none)).take 500).filterMap
    (fun r =>
      match r.stableHash with
      | some s => if s.isEmpty then none else some (r.id, r.visitorId, s)
      | none => none)

/-- Append a session row (`createSession`). -/
def addSession (db : Db) (visitorId : Str) (fpId : Nat) (ip : Option Str)
    (now : Nat) : Db :=
  { db with sessions := ⟨visitorId, fpId, ip, now⟩ :: db.sessions }

/-- The fingerprint row written on layers 2–5 (`prisma.fingerprint.create`). -/
def mkFpRow (db : Db) (inp : FingerprintInput) (confidence : ℚ)
    (visitorId : Str) : FpRow :=
  ⟨db.nextFpId, visitorId, inp.fingerprint, inp.fuzzyHash, inp.stableHash,
    validatedGpuHash inp, confidence, inp.isFarbled.getD false⟩

/-- Prepend a fingerprint row to the store. -/
def addFingerprint (db : Db) (row : FpRow) : Db :=
  { db with fingerprints := row :: db.fingerprints,
            nextFpId := db.nextFpId + 1 }

/-- The engine's result record. -/
structure MatchResult where
  matchType : MatchType
  confidence : ℚ
  visitorId : Str
  fingerprintId : Nat
  isNewVisitor : Bool
deriving DecidableEq, Repr

/-- Layer 1: exact `fingerprintHash` match. The session is written before
the crowd-blending validation runs. -/
def layerExact (db : Db) (inp : FingerprintInput) (now : Nat) :
    Option (MatchResult × Db) :=
  match db.fingerprints.find? (fun r => r.fingerprintHash == inp.fingerprint) with
  | none => none
  | some exactMatch =>
    let db1 := addSession db exactMatch.visitorId exactMatch.id inp.ipAddress now
    let validation :=
      applyMatchValidation db1.sessions exactMatch.visitorId .exact 1 now
    some (⟨.exact, validation.1, exactMatch.visitorId, exactMatch.id, false⟩, db1)

/-- Layer 2: exact `stableHash` match, only when the submission carries a
(truthy) stable hash. -/
def layerStable (db : Db) (inp : FingerprintInput) (now : Nat) :
    Option (MatchResult × Db) :=
  match inp.stableHash with
  | none => none
  | some sh =>
    if sh.isEmpty then none
    else
      match db.fingerprints.find? (fun r => r.stableHash == some sh) with
      | none => none
      | some stableMatch =>
        let validation :=
          applyMatchValidation db.sessions stableMatch.visitorId .stable 0.95 now
        let newFp := mkFpRow db inp validation.1 stableMatch.visitorId
        let db1 := addFingerprint db newFp
        let db2 := addSession db1 stableMatch.visitorId newFp.id inp.ipAddress now
        some (⟨.stable, validation.1, stableMatch.visitorId, newFp.id, false⟩, db2)

/-- Layer 3: exact `gpuTimingHash` match, only on the validated hash. -/
def layerGpu (db : Db) (inp : FingerprintInput) (now : Nat) :
    Option (MatchResult × Db) :=
  match validatedGpuHash inp with
  | none => none
  | some gh =>
    if gh.isEmpty then none
    else
      match db.fingerprints.find? (fun r => r.gpuTimingHash == some gh) with
      | none => none
      | some gpuMatch =>
        let validation :=
          applyMatchValidation db.sessions gpuMatch.visitorId .gpu 0.92 now
        let newFp := mkFpRow db inp validation.1 gpuMatch.visitorId
        let db1 := addFingerprint db newFp
        let db2 := addSession db1 gpuMatch.visitorId newFp.id inp.ipAddress now
        some (⟨.gpu, validation.1, gpuMatch.visitorId, newFp.id, false⟩, db2)

/-- Layer 4: fuzzy `stableHash` scan, threshold 4 over the 500-window. -/
def layerFuzzyStable (db : Db) (inp : FingerprintInput) (now : Nat) :
    Option (MatchResult × Db) :=
  match inp.stableHash with
  | none => none
  | some sh =>
    if sh.isEmpty then none
    else
      match scanBest sh 4 (stableCands db) with
      | none => none
      | some best =>
        let baseConfidence : ℚ := 1 - (best.distance : ℚ) / 64
        let validation :=
          applyMatchValidation db.sessions best.visitorId .fuzzyStable
            baseConfidence now
        let newFp := mkFpRow db inp validation.1 best.visitorId
        let db1 := addFingerprint db newFp
        let db2 := addSession db1 best.visitorId newFp.id inp.ipAddress now
        some (⟨.fuzzyStable, validation.1, best.visitorId, newFp.id, false⟩, db2)

/-- Layer 5: fuzzy `fuzzyHash` scan, threshold 8 over the 1000-window. -/
def layerFuzzy (db : Db) (inp : FingerprintInput) (now : Nat) :
    Option (MatchResult × Db) :=
  match scanBest inp.fuzzyHash 8 (fuzzyCands db) with
  | none => none
  | some best =>
    let baseConfidence : ℚ := 1 - (best.distance : ℚ) / 64
    let validation :=
      applyMatchValidation db.sessions best.visitorId .fuzzy baseConfidence now
    let newFp := mkFpRow db inp validation.1 best.visitorId
    let db1 := addFingerprint db newFp
    let db2 := addSession db1 best.visitorId newFp.id inp.ipAddress now
    some (⟨.fuzzy, validation.1, best.visitorId, newFp.id, false⟩, db2)

/-- Fresh visitor id minted by `prisma.visitor.create` (a UUID in the
source, a counter-derived name here). -/
def freshVisitorId (db : Db) : Str := 'v' :: natToDec db.nextVisitorNum

/-- Layer 6: create a new visitor with its first fingerprint row. -/
def layerNew (db : Db) (inp : FingerprintInput) (now : Nat) :
    MatchResult × Db :=
  let vid := freshVisitorId db
  let newFp := mkFpRow db inp 1 vid
  let db1 : Db :=
    { db with fingerprints := newFp :: db.fingerprints,
              nextFpId := db.nextFpId + 1,
              visitors := vid :: db.visitors,
              nextVisitorNum := db.nextVisitorNum + 1 }
  let db2 := addSession db1 vid newFp.id inp.ipAddress now
  (⟨.new, 1, vid, newFp.id, true⟩, db2)

/-- `matchFingerprint` of `identity.ts` (services/matching): the six-layer
state machine, first hit wins. -/
def matchFingerprint (db : Db) (inp : FingerprintInput) (now : Nat) :
    MatchResult × Db :=
  match layerExact db inp now with
  | some r => r
  | none =>
    match layerStable db inp now with
    | some r => r
    | none =>
      match layerGpu db inp now with
      | some r => r
      | none =>
        match layerFuzzyStable db inp now with
        | some r => r
        | none =>
          match layerFuzzy db inp now with
          | some r => r
          | none => layerNew db inp now

/-! ## Route validation schema

Embedded from `routes/fingerprint.ts` lines 23–48 (`fingerprintSchema`):
zod checks `z.string().length(64)` on each hash, optional for the stable
and GPU hashes. -/

/-- The hash fields of a submission body (other fields of the schema are
not at issue in the hash-validation claim). -/
structure RawSubmission where
  fingerprint : Str
  fuzzyHash : Str
  stableHash : Option Str
  gpuTimingHash : Option Str
deriving DecidableEq, Repr

/-- The hash-field part of `fingerprintSchema.safeParse` succeeding. -/
def fingerprintSchemaAccepts (s : RawSubmission) : Bool :=
  (s.fingerprint.length == 64) && (s.fuzzyHash.length == 64) &&
  (match s.stableHash with
   | none => true
   | some h => h.length == 64) &&
  (match s.gpuTimingHash with
   | none => true
   | some h => h.length == 64)

/-- A hex digit (either case), as the spec's "digits only" invariant. -/
def isHexDigitCh (c : Char) : Bool :=
  ('0' ≤ c && c ≤ '9') || ('a' ≤ c && c ≤ 'f') || ('A' ≤ c && c ≤ 'F')

/-- The spec's invariant: a string of exactly 64 hex digits. -/
def isHex64 (s : Str) : Bool := (s.length == 64) && s.all isHexDigitCh

/-! ## Spec-side definitions

Definitions following the spec's words (§4.D tier tables, §4.E layer
table), to be compared with the source-side functions above. -/

/-- Layer 1 of the spec's table hits: `find_fp_by_exact_hash` is some. -/
def exactHit (db : Db) (inp : FingerprintInput) : Bool :=
  (db.fingerprints.find? (fun r => r.fingerprintHash == inp.fingerprint)).isSome

/-- Layer 2 of the spec's table: the stable lookup, run only when the
submission carries a stable hash. -/
def stableHitRow (db : Db) (inp : FingerprintInput) : Option FpRow :=
  match inp.stableHash with
  | none => none
  | some sh =>
    if sh.isEmpty then none
    else db.fingerprints.find? (fun r => r.stableHash == some sh)

/-- Layer 3 of the spec's table: the GPU lookup, run only when the
gpu-timing signal is validated usable. -/
def gpuHitRow (db : Db) (inp : FingerprintInput) : Option FpRow :=
  match validatedGpuHash inp with
  | none => none
  | some gh =>
    if gh.isEmpty then none
    else db.fingerprints.find? (fun r => r.gpuTimingHash == some gh)

/-- Layer 4 of the spec's table: the fuzzy-stable scan. -/
def fsBestSpec (db : Db) (inp : FingerprintInput) : Option BestMatch :=
  match inp.stableHash with
  | none => none
  | some sh => if sh.isEmpty then none else scanBest sh 4 (stableCands db)

/-- Layer 5 of the spec's table: the fuzzy scan. -/
def fuzzyBestSpec (db : Db) (inp : FingerprintInput) : Option BestMatch :=
  scanBest inp.fuzzyHash 8 (fuzzyCands db)

/-- The spec's state machine: evaluated strictly in order, first hit wins. -/
def specFirstLayer (db : Db) (inp : FingerprintInput) : MatchType :=
  if exactHit db inp then .exact
  else if (stableHitRow db inp).isSome then .stable
  else if (gpuHitRow db inp).isSome then .gpu
  else if (fsBestSpec db inp).isSome then .fuzzyStable
  else if (fuzzyBestSpec db inp).isSome then .fuzzy
  else .new

/-- The spec's base-confidence column: 1.00 exact, 0.95 stable, 0.92 gpu,
`1 − d/64` for the fuzzy layers, 1.00 new. -/
def specBase (db : Db) (inp : FingerprintInput) : ℚ :=
  if exactHit db inp then 1
  else if (stableHitRow db inp).isSome then 0.95
  else if (gpuHitRow db inp).isSome then 0.92
  else
    match fsBestSpec db inp with
    | some b => 1 - (b.distance : ℚ) / 64
    | none =>
      match fuzzyBestSpec db inp with
      | some b => 1 - (b.distance : ℚ) / 64
      | none => 1

/-- The visitor selected by the first hitting layer (fresh for `new`). -/
def specMatchedVisitor (db : Db) (inp : FingerprintInput) : Str :=
  match db.fingerprints.find? (fun r => r.fingerprintHash == inp.fingerprint) with
  | some r => r.visitorId
  | none =>
    match stableHitRow db inp with
    | some r => r.visitorId
    | none =>
      match gpuHitRow db inp with
      | some r => r.visitorId
      | none =>
        match fsBestSpec db inp with
        | some b => b.visitorId
        | none =>
          match fuzzyBestSpec db inp with
          | some b => b.visitorId
          | none => freshVisitorId db

/-- The crowd-blending scorer as the spec states it (§4.D): tier tables,
distinct non-null IPs, `day_span = ceil((latest − earliest) / 1 day)`,
`(score = 0, NEW)` for zero recent sessions; trust level read off the
returned (rounded) score. -/
def specOfRecent (recent : List SessionRow) : CrowdBlendingResult :=
  if recent.isEmpty then ⟨0, 0, 0, 0, false, TrustLevel.new⟩
  else
    let visits := recent.length
    let uniqueIPs := ((recent.filterMap (fun s => s.ipAddress)).toFinset).card
    let latest := maxList (recent.map (fun s => s.firstSeen))
    let earliest := minList (recent.map (fun s => s.firstSeen))
    let daySpan := (⌈((latest - earliest : Nat) : ℚ) / (MS_PER_DAY : ℚ)⌉).toNat
    let score := round2 (visitFactor visits + ipFactor uniqueIPs visits +
      timeFactor daySpan)
    let isTrusted : Bool := decide (visits ≥ 3 ∧ uniqueIPs ≥ 2)
    let trustLevel :=
      if score ≥ 0.7 then TrustLevel.verified
      else if isTrusted then TrustLevel.trusted
      else if visits ≥ 2 then TrustLevel.returning
      else TrustLevel.new
    ⟨score, uniqueIPs, visits, daySpan, isTrusted, trustLevel⟩

/-- Invariant of the fuzzy-scan loop over the processed prefix: a `none`
best means no processed candidate qualified; a `some` best is within the
threshold, comes from a processed candidate strictly better than every
earlier qualifying one (the first minimum — the most recent, since the
window is recency-ordered), and is minimal over all processed qualifying
candidates. -/
def scanGood (target : Str) (threshold : Nat)
    (processed : List (Nat × Str × Str)) : Option BestMatch → Prop
  | none =>
    ∀ c ∈ processed, ∀ d, hammingDistance c.2.2 target = some d →
      ¬ d ≤ threshold
  | some b =>
    b.distance ≤ threshold ∧
    (∃ pre cb post, processed = pre ++ cb :: post ∧
      b = ⟨cb.1, cb.2.1, b.distance⟩ ∧
      hammingDistance cb.2.2 target = some b.distance ∧
      ∀ c' ∈ pre, ∀ d', hammingDistance c'.2.2 target = some d' →
        d' ≤ threshold → b.distance < d') ∧
    (∀ c ∈ processed, ∀ d, hammingDistance c.2.2 target = some d →
      d ≤ threshold → b.distance ≤ d)

/-- The spec's scorer over the visitor's recent sessions. -/
def crowdScoreSpec (sessions : List SessionRow) (visitorId : Str)
    (now : Nat) : CrowdBlendingResult :=
  specOfRecent (recentSessions sessions visitorId now)

/-! ## Theorems -/

/-! ### Helper lemmas: arithmetic of the scorer -/

theorem ceil_div_toNat (d k : Nat) (hk : 0 < k) :
    (⌈(d : ℚ) / (k : ℚ)⌉).toNat = (d + (k - 1)) / k := by
  have hkq : (0 : ℚ) < (k : ℚ) := by exact_mod_cast hk
  set z := (d + (k - 1)) / k with hz
  set r := (d + (k - 1)) % k with hrdef
  have hmod : k * z + r = d + (k - 1) := Nat.div_add_mod _ _
  have hr : r < k := Nat.mod_lt _ hk
  have hq : (k : ℚ) * (z : ℚ) + (r : ℚ) = (d : ℚ) + ((k : ℚ) - 1) := by
    have h1 : ((k * z + r : ℕ) : ℚ) = ((d + (k - 1) : ℕ) : ℚ) := by
      exact_mod_cast hmod
    push_cast [Nat.cast_sub (by omega : 1 ≤ k)] at h1
    linarith
  have hrq : (r : ℚ) ≤ (k : ℚ) - 1 := by
    have h2 : ((r : ℕ) : ℚ) ≤ ((k - 1 : ℕ) : ℚ) := by
      exact_mod_cast Nat.le_sub_one_of_lt hr
    rwa [Nat.cast_sub (by omega : 1 ≤ k), Nat.cast_one] at h2
  have hrq0 : (0 : ℚ) ≤ (r : ℚ) := by positivity
  have hceil : ⌈(d : ℚ) / (k : ℚ)⌉ = (z : ℤ) := by
    rw [Int.ceil_eq_iff]
    simp only [Int.cast_natCast]
    constructor
    · rw [lt_div_iff₀ hkq, sub_mul, one_mul]
      linarith
    · rw [div_le_iff₀ hkq]
      linarith
  rw [hceil, Int.toNat_natCast]

theorem floor_natCast_add_half (n : ℤ) : ⌊(n : ℚ) + 1 / 2⌋ = n := by
  rw [add_comm, Int.floor_add_int, show ⌊(1 / 2 : ℚ)⌋ = 0 by
    rw [Int.floor_eq_zero_iff]; constructor <;> norm_num]
  omega

theorem round2_div20 (k : ℕ) : round2 ((k : ℚ) / 20) = (k : ℚ) / 20 := by
  have h : ((k : ℚ) / 20) * 100 = ((5 * k : ℤ) : ℚ) := by push_cast; ring
  rw [round2, jsRound, h, floor_natCast_add_half]
  push_cast
  ring

theorem visitFactor_div20 (v : Nat) : ∃ k : ℕ, visitFactor v = (k : ℚ) / 20 := by
  unfold visitFactor
  split_ifs
  exacts [⟨8, by norm_num⟩, ⟨6, by norm_num⟩, ⟨4, by norm_num⟩,
    ⟨2, by norm_num⟩, ⟨0, by norm_num⟩]

theorem ipFactor_div20 (u v : Nat) : ∃ k : ℕ, ipFactor u v = (k : ℚ) / 20 := by
  unfold ipFactor
  split_ifs
  exacts [⟨8, by norm_num⟩, ⟨6, by norm_num⟩, ⟨2, by norm_num⟩,
    ⟨0, by norm_num⟩]

theorem timeFactor_div20 (d : Nat) : ∃ k : ℕ, timeFactor d = (k : ℚ) / 20 := by
  unfold timeFactor
  split_ifs
  exacts [⟨4, by norm_num⟩, ⟨3, by norm_num⟩, ⟨2, by norm_num⟩,
    ⟨0, by norm_num⟩]

theorem round2_factors (v u d : Nat) :
    round2 (visitFactor v + ipFactor u v + timeFactor d) =
      visitFactor v + ipFactor u v + timeFactor d := by
  obtain ⟨k1, h1⟩ := visitFactor_div20 v
  obtain ⟨k2, h2⟩ := ipFactor_div20 u v
  obtain ⟨k3, h3⟩ := timeFactor_div20 d
  rw [h1, h2, h3, div_add_div_same, div_add_div_same, ← Nat.cast_add,
    ← Nat.cast_add, round2_div20]

theorem visitFactor_mono {a b : Nat} (h : a ≤ b) :
    visitFactor a ≤ visitFactor b := by
  unfold visitFactor
  split_ifs <;> first | (exfalso; omega) | norm_num

theorem ipFactor_mono {a a' b b' : Nat} (ha : a ≤ a') (hb : b ≤ b') :
    ipFactor a b ≤ ipFactor a' b' := by
  unfold ipFactor
  split_ifs <;> first | (exfalso; omega) | norm_num

theorem timeFactor_mono {a b : Nat} (h : a ≤ b) :
    timeFactor a ≤ timeFactor b := by
  unfold timeFactor
  split_ifs <;> first | (exfalso; omega) | norm_num

theorem visitFactor_nonneg (a : Nat) : 0 ≤ visitFactor a := by
  unfold visitFactor
  split_ifs <;> norm_num

theorem ipFactor_nonneg (a b : Nat) : 0 ≤ ipFactor a b := by
  unfold ipFactor
  split_ifs <;> norm_num

theorem timeFactor_nonneg (a : Nat) : 0 ≤ timeFactor a := by
  unfold timeFactor
  split_ifs <;> norm_num

theorem round2_mono {a b : ℚ} (h : a ≤ b) : round2 a ≤ round2 b := by
  unfold round2 jsRound
  have hf : ⌊a * 100 + 1 / 2⌋ ≤ ⌊b * 100 + 1 / 2⌋ :=
    Int.floor_le_floor (by linarith)
  have hc : ((⌊a * 100 + 1 / 2⌋ : ℤ) : ℚ) ≤ ((⌊b * 100 + 1 / 2⌋ : ℤ) : ℚ) := by
    exact_mod_cast hf
  linarith

theorem round2_nonneg {a : ℚ} (h : 0 ≤ a) : 0 ≤ round2 a := by
  unfold round2 jsRound
  have hf : (0 : ℤ) ≤ ⌊a * 100 + 1 / 2⌋ := by
    rw [Int.le_floor]
    push_cast
    linarith
  exact div_nonneg (by exact_mod_cast hf) (by norm_num)

theorem dedup_length_cons_le {α : Type} [DecidableEq α] (a : α) (l : List α) :
    l.dedup.length ≤ (a :: l).dedup.length := by
  by_cases h : a ∈ l
  · rw [List.dedup_cons_of_mem h]
  · rw [List.dedup_cons_of_not_mem h]
    exact Nat.le_succ _

theorem uniqueIPsOf_cons_le (s : SessionRow) (l : List SessionRow) :
    uniqueIPsOf l ≤ uniqueIPsOf (s :: l) := by
  unfold uniqueIPsOf
  rw [List.filterMap_cons]
  cases s.ipAddress
  · exact le_refl _
  · exact dedup_length_cons_le _ _

theorem foldl_min_le_init (l : List Nat) (x : Nat) : l.foldl Nat.min x ≤ x := by
  induction l generalizing x with
  | nil => exact le_refl x
  | cons a t ih =>
    exact le_trans (ih (Nat.min x a)) (Nat.min_le_left x a)

theorem foldl_min_mono_init {x y : Nat} (l : List Nat) (h : x ≤ y) :
    l.foldl Nat.min x ≤ l.foldl Nat.min y := by
  induction l generalizing x y with
  | nil => exact h
  | cons a t ih =>
    exact ih (min_le_min h (le_refl a))

theorem init_le_foldl_max (l : List Nat) (x : Nat) : x ≤ l.foldl Nat.max x := by
  induction l generalizing x with
  | nil => exact le_refl x
  | cons a t ih =>
    exact le_trans (Nat.le_max_left x a) (ih (Nat.max x a))

theorem foldl_max_mono_init {x y : Nat} (l : List Nat) (h : x ≤ y) :
    l.foldl Nat.max x ≤ l.foldl Nat.max y := by
  induction l generalizing x y with
  | nil => exact h
  | cons a t ih =>
    exact ih (max_le_max h (le_refl a))

theorem minList_cons_le (a : Nat) (l : List Nat) (hl : l ≠ []) :
    minList (a :: l) ≤ minList l := by
  match l with
  | [] => exact absurd rfl hl
  | t :: ts =>
    show ts.foldl Nat.min (Nat.min a t) ≤ ts.foldl Nat.min t
    exact foldl_min_mono_init ts (Nat.min_le_right a t)

theorem le_maxList_cons (a : Nat) (l : List Nat) (hl : l ≠ []) :
    maxList l ≤ maxList (a :: l) := by
  match l with
  | [] => exact absurd rfl hl
  | t :: ts =>
    show ts.foldl Nat.max t ≤ ts.foldl Nat.max (Nat.max a t)
    exact foldl_max_mono_init ts (Nat.le_max_right a t)

theorem minList_le_maxList (l : List Nat) : minList l ≤ maxList l := by
  match l with
  | [] => exact le_refl 0
  | t :: ts =>
    exact le_trans (foldl_min_le_init ts t) (init_le_foldl_max ts t)

/-! ### Helper lemmas: tokens, digits and splitting -/

theorem splitOnChar_cons (sep c : Char) (rest : Str) :
    splitOnChar sep (c :: rest) =
      match splitOnChar sep rest with
      | [] => [[c]]
      | h :: t => if c = sep then [] :: h :: t else (c :: h) :: t := rfl

theorem splitOnChar_ne_nil (sep : Char) (l : Str) : splitOnChar sep l ≠ [] := by
  induction l with
  | nil => simp [splitOnChar]
  | cons c rest ih =>
    rw [splitOnChar_cons]
    rcases h : splitOnChar sep rest with _ | ⟨hd, tl⟩
    · exact absurd h ih
    · by_cases hc : c = sep <;> simp [hc]

theorem splitOnChar_of_not_mem {sep : Char} {l : Str} (h : sep ∉ l) :
    splitOnChar sep l = [l] := by
  induction l with
  | nil => rfl
  | cons c rest ih =>
    have hc : c ≠ sep := fun hh => h (hh ▸ List.mem_cons_self c rest)
    have hr : sep ∉ rest := fun hh => h (List.mem_cons_of_mem c hh)
    rw [splitOnChar_cons, ih hr]
    simp [hc]

theorem splitOnChar_append {sep : Char} {a : Str} (rest : Str) (h : sep ∉ a) :
    splitOnChar sep (a ++ sep :: rest) = a :: splitOnChar sep rest := by
  induction a with
  | nil =>
    simp only [List.nil_append]
    rw [splitOnChar_cons]
    rcases hs : splitOnChar sep rest with _ | ⟨hd, tl⟩
    · exact absurd hs (splitOnChar_ne_nil sep rest)
    · simp [hs]
  | cons c a' ih =>
    have hc : c ≠ sep := fun hh => h (hh ▸ List.mem_cons_self c a')
    have ha : sep ∉ a' := fun hh => h (List.mem_cons_of_mem c hh)
    simp only [List.cons_append]
    rw [splitOnChar_cons, ih ha]
    simp [hc]

theorem natToDecCore_eq : ∀ (fuel n : Nat) (acc : Str), n < 10 ^ (fuel + 1) →
    natToDecCore (fuel + 1) n acc = digitsOfNat n ++ acc := by
  intro fuel
  induction fuel with
  | zero =>
    intro n acc h
    have hn : n < 10 := by simpa using h
    rw [natToDecCore, digitsOfNat]
    simp [hn, Nat.mod_eq_of_lt hn]
  | succ fuel ih =>
    intro n acc h
    by_cases hn : n < 10
    · rw [natToDecCore, digitsOfNat]
      simp [hn, Nat.mod_eq_of_lt hn]
    · have hdiv : n / 10 < 10 ^ (fuel + 1) := by
        rw [Nat.div_lt_iff_lt_mul (by norm_num)]
        calc n < 10 ^ (fuel + 1 + 1) := h
          _ = 10 ^ (fuel + 1) * 10 := by ring
      rw [natToDecCore]
      simp only [hn, if_false]
      rw [ih (n / 10) (hexDigitCh (n % 10) :: acc) hdiv]
      conv_rhs => rw [digitsOfNat]
      rw [dif_neg hn, List.append_assoc]
      rfl

theorem natToDec_eq_digits (n : Nat) : natToDec n = digitsOfNat n := by
  have h : n < 10 ^ (n + 1) :=
    lt_of_lt_of_le (Nat.lt_pow_self (by norm_num) n)
      (Nat.pow_le_pow_right (by norm_num) (Nat.le_succ n))
  unfold natToDec
  rw [natToDecCore_eq n n [] h, List.append_nil]

theorem digitsOfNat_digits : ∀ n : Nat, ∀ c ∈ digitsOfNat n,
    '0' ≤ c ∧ c ≤ '9' := by
  intro n
  induction n using Nat.strong_induction_on with
  | _ n ih =>
    intro c hc
    by_cases hn : n < 10
    · rw [digitsOfNat, dif_pos hn] at hc
      simp only [List.mem_singleton] at hc
      subst hc
      interval_cases n <;> exact ⟨by decide, by decide⟩
    · rw [digitsOfNat, dif_neg hn] at hc
      rcases List.mem_append.mp hc with h1 | h2
      · exact ih (n / 10) (Nat.div_lt_self (by omega) (by norm_num)) c h1
      · simp only [List.mem_singleton] at h2
        subst h2
        have hm : n % 10 < 10 := Nat.mod_lt _ (by norm_num)
        set m := n % 10 with hmm
        interval_cases m <;> exact ⟨by decide, by decide⟩

theorem digitsOfNat_ne_nil (n : Nat) : digitsOfNat n ≠ [] := by
  rw [digitsOfNat]
  split <;> simp

theorem takeDigits_of_digits : ∀ l : Str, (∀ c ∈ l, '0' ≤ c ∧ c ≤ '9') →
    takeDigits l = l.map (fun c => c.toNat - '0'.toNat) := by
  intro l h
  induction l with
  | nil => rfl
  | cons c rest ih =>
    have hc := h c (List.mem_cons_self c rest)
    unfold takeDigits
    rw [show digitVal c = some (c.toNat - '0'.toNat) from if_pos hc]
    rw [List.map_cons]
    exact congrArg _ (ih fun d hd => h d (List.mem_cons_of_mem _ hd))

theorem digitsToNat_digitsOfNat : ∀ n : Nat,
    digitsToNat ((digitsOfNat n).map (fun c => c.toNat - '0'.toNat)) = n := by
  intro n
  induction n using Nat.strong_induction_on with
  | _ n ih =>
    by_cases hn : n < 10
    · rw [digitsOfNat, dif_pos hn]
      simp only [List.map_cons, List.map_nil, digitsToNat, List.foldl_cons,
        List.foldl_nil, Nat.mul_zero, Nat.zero_add]
      interval_cases n <;> decide
    · rw [digitsOfNat, dif_neg hn]
      rw [List.map_append, digitsToNat, List.foldl_append]
      have ihd := ih (n / 10) (Nat.div_lt_self (by omega) (by norm_num))
      rw [digitsToNat] at ihd
      rw [ihd]
      simp only [List.map_cons, List.map_nil, List.foldl_cons, List.foldl_nil]
      have hm : n % 10 < 10 := Nat.mod_lt _ (by norm_num)
      have hv : (hexDigitCh (n % 10)).toNat - '0'.toNat = n % 10 := by
        set m := n % 10 with hmm
        interval_cases m <;> decide
      rw [hv]
      omega

theorem digit_not_sign_space {c : Char} (h : '0' ≤ c ∧ c ≤ '9') :
    c ≠ '-' ∧ c ≠ '+' ∧ isJsSpace c = false := by
  obtain ⟨h1, h2⟩ := h
  have hsp : c ≠ ' ' ∧ c ≠ '\t' ∧ c ≠ '\n' ∧ c ≠ '\r' := by
    refine ⟨?_, ?_, ?_, ?_⟩ <;> rintro rfl <;> exact absurd h1 (by decide)
  refine ⟨?_, ?_, ?_⟩
  · rintro rfl; exact absurd h1 (by decide)
  · rintro rfl; exact absurd h1 (by decide)
  · simp [isJsSpace, hsp.1, hsp.2.1, hsp.2.2.1, hsp.2.2.2]

theorem parseInt_digitsOfNat (n : Nat) :
    parseIntBase10 (digitsOfNat n) = some (n : Int) := by
  obtain ⟨c, rest, hcr⟩ : ∃ c rest, digitsOfNat n = c :: rest := by
    rcases h : digitsOfNat n with _ | ⟨c, rest⟩
    · exact absurd h (digitsOfNat_ne_nil n)
    · exact ⟨c, rest, rfl⟩
  have hdig := digitsOfNat_digits n
  have hc := hdig c (hcr ▸ List.mem_cons_self c rest)
  obtain ⟨hnd1, hnd2, hns⟩ := digit_not_sign_space hc
  have ht : takeDigits (c :: rest) =
      (c :: rest).map (fun c => c.toNat - '0'.toNat) :=
    takeDigits_of_digits _ (hcr ▸ hdig)
  have hval := digitsToNat_digitsOfNat n
  rw [hcr] at hval
  unfold parseIntBase10
  rw [hcr, List.dropWhile_cons, hns]
  simp only [Bool.false_eq_true, if_false, if_neg hnd1, if_neg hnd2, ht,
    List.map_cons, List.isEmpty_cons]
  simp only [List.map_cons] at hval
  rw [hval]

theorem hexDigitCh_ne_dot (m : Nat) : hexDigitCh m ≠ '.' := by
  unfold hexDigitCh
  split <;> decide

theorem mem_toHexStr {c : Char} {bytes : List Nat} (h : c ∈ toHexStr bytes) :
    ∃ m, c = hexDigitCh m := by
  unfold toHexStr at h
  rw [List.mem_flatMap] at h
  obtain ⟨b, -, hb⟩ := h
  simp only [List.mem_cons, List.mem_singleton, List.not_mem_nil,
    or_false] at hb
  rcases hb with h1 | h1
  · exact ⟨b / 16, h1⟩
  · exact ⟨b % 16, h1⟩

theorem toHexStr_length (bytes : List Nat) :
    (toHexStr bytes).length = 2 * bytes.length := by
  induction bytes with
  | nil => rfl
  | cons b t ih =>
    unfold toHexStr at ih ⊢
    rw [List.flatMap_cons, List.length_append, ih, List.length_cons]
    simp
    omega

theorem shaRound_length (st : List Nat) (kw : Nat × Nat) (h : st.length = 8) :
    (shaRound st kw).length = 8 := by
  rcases st with _ | ⟨a1, _ | ⟨a2, _ | ⟨a3, _ | ⟨a4, _ | ⟨a5, _ | ⟨a6,
    _ | ⟨a7, _ | ⟨a8, rest⟩⟩⟩⟩⟩⟩⟩⟩ <;> simp_all
  have : rest = [] := by
    rcases rest with _ | ⟨a9, rest⟩
    · rfl
    · simp at h
  subst this
  rfl

theorem foldl_shaRound_length (l : List (Nat × Nat)) :
    ∀ st : List Nat, st.length = 8 → (l.foldl shaRound st).length = 8 := by
  induction l with
  | nil => intro st h; exact h
  | cons kw t ih => intro st h; exact ih _ (shaRound_length st kw h)

theorem compress_length (h : List Nat) (b : List Nat) (hh : h.length = 8) :
    (compress h b).length = 8 := by
  unfold compress
  rw [List.length_map, List.length_zip, foldl_shaRound_length _ _ hh, hh]
  simp

theorem foldl_compress_length (bs : List (List Nat)) :
    ∀ h : List Nat, h.length = 8 → (bs.foldl compress h).length = 8 := by
  induction bs with
  | nil => intro h hh; exact hh
  | cons b t ih => intro h hh; exact ih _ (compress_length h b hh)

theorem flatMap_wordBytes_length (l : List Nat) :
    (l.flatMap wordBytes).length = 4 * l.length := by
  induction l with
  | nil => rfl
  | cons w t ih =>
    rw [List.flatMap_cons, List.length_append, ih, List.length_cons]
    simp [wordBytes]
    omega

theorem sha256_length (msg : List Nat) : (sha256 msg).length = 32 := by
  unfold sha256
  rw [flatMap_wordBytes_length, foldl_compress_length _ _ (by rfl)]

theorem signVisitorId_length (v : Str) : (signVisitorId v).length = 16 := by
  unfold signVisitorId hmacSha256
  rw [List.length_take, toHexStr_length, sha256_length]
  rfl

theorem signVisitorId_ne_nil (v : Str) : signVisitorId v ≠ [] := by
  intro h
  have := signVisitorId_length v
  rw [h] at this
  simp at this

theorem signVisitorId_no_dot (v : Str) : '.' ∉ signVisitorId v := by
  intro h
  have h2 := List.mem_of_mem_take h
  obtain ⟨m, hm⟩ := mem_toHexStr h2
  exact hexDigitCh_ne_dot m hm.symm

theorem digitsOfNat_no_dot (n : Nat) : '.' ∉ digitsOfNat n := by
  intro h
  obtain ⟨h1, -⟩ := digitsOfNat_digits n '.' h
  exact absurd h1 (by decide)

theorem verify_sign_self {v : Str} (hv : v ≠ []) :
    verifyVisitorId v (signVisitorId v) = true := by
  have hvE : v.isEmpty = false := by
    cases v
    · exact absurd rfl hv
    · rfl
  have hsE : (signVisitorId v).isEmpty = false := by
    rcases h : signVisitorId v with _ | ⟨a, t⟩
    · exact absurd h (signVisitorId_ne_nil v)
    · rfl
  unfold verifyVisitorId
  rw [if_neg (by simp [hvE, hsE, signVisitorId_length, SIGNATURE_LENGTH])]
  unfold timingSafeEqual
  rw [if_neg (by simp)]
  simp

theorem parse_createSigned {v : Str} (now : Nat) (hv : v ≠ [])
    (hdot : '.' ∉ v) :
    parseSignedVisitorId (createSignedVisitorId v now) =
      some ⟨v, signVisitorId v, (now : Int), true⟩ := by
  have htok : createSignedVisitorId v now =
      v ++ '.' :: (signVisitorId v ++ '.' :: natToDec now) := by
    unfold createSignedVisitorId
    rw [List.append_assoc, List.cons_append]
  have hsplit : splitOnChar '.' (createSignedVisitorId v now) =
      [v, signVisitorId v, natToDec now] := by
    rw [htok, splitOnChar_append _ hdot,
      splitOnChar_append _ (signVisitorId_no_dot v),
      splitOnChar_of_not_mem (by
        rw [natToDec_eq_digits]
        exact digitsOfNat_no_dot now)]
  have hne : (createSignedVisitorId v now).isEmpty = false := by
    rw [htok]
    cases v
    · exact absurd rfl hv
    · rfl
  have hvE : v.isEmpty = false := by
    cases v
    · exact absurd rfl hv
    · rfl
  have hsE : (signVisitorId v).isEmpty = false := by
    rcases h : signVisitorId v with _ | ⟨a, t⟩
    · exact absurd h (signVisitorId_ne_nil v)
    · rfl
  unfold parseSignedVisitorId
  rw [hne, hsplit]
  simp only [Bool.false_eq_true, if_false, natToDec_eq_digits,
    parseInt_digitsOfNat, hvE, hsE, Bool.or_self, verify_sign_self hv]

theorem verify_true_iff (v s : Str) :
    verifyVisitorId v s = true ↔
      (v ≠ [] ∧ s.length = 16 ∧
        hexDecodePairs s = hexDecodePairs (signVisitorId v)) := by
  constructor
  · intro htrue
    by_cases hguard :
        (v.isEmpty || s.isEmpty || s.length != SIGNATURE_LENGTH) = true
    · simp [verifyVisitorId, hguard] at htrue
    · have hg := hguard
      simp only [Bool.or_eq_true, not_or, Bool.not_eq_true, bne_iff_ne,
        ne_eq, not_not, List.isEmpty_eq_true] at hg
      refine ⟨hg.1.1, hg.2, ?_⟩
      by_cases hlen :
          (hexDecodePairs s).length ≠ (hexDecodePairs (signVisitorId v)).length
      · simp [verifyVisitorId, hguard, timingSafeEqual, hlen] at htrue
      · simp only [ne_eq, not_not] at hlen
        simp [verifyVisitorId, hguard, timingSafeEqual, hlen] at htrue
        exact htrue
  · rintro ⟨hv, hlen, heq⟩
    have hvE : v.isEmpty = false := by
      cases v
      · exact absurd rfl hv
      · rfl
    have hsE : s.isEmpty = false := by
      cases s
      · simp at hlen
      · rfl
    unfold verifyVisitorId
    rw [if_neg (by simp [hvE, hsE, hlen, SIGNATURE_LENGTH])]
    unfold timingSafeEqual
    rw [heq, if_neg (by simp)]
    simp

theorem parse_none_iff (t : Str) :
    parseSignedVisitorId t = none ↔
      ¬ ∃ vd sg ts k, splitOnChar '.' t = [vd, sg, ts] ∧ vd ≠ [] ∧
        sg ≠ [] ∧ parseIntBase10 ts = some k := by
  constructor
  · intro hnone
    rintro ⟨vd, sg, ts, k, hsp, h1, h2, h3⟩
    have h1E : vd.isEmpty = false := by
      cases vd
      · exact absurd rfl h1
      · rfl
    have h2E : sg.isEmpty = false := by
      cases sg
      · exact absurd rfl h2
      · rfl
    have htE : t.isEmpty = false := by
      cases t
      · simp [splitOnChar] at hsp
      · rfl
    unfold parseSignedVisitorId at hnone
    rw [htE] at hnone
    simp only [Bool.false_eq_true, if_false] at hnone
    rw [hsp] at hnone
    simp [h3, h1E, h2E] at hnone
  · intro hne
    by_cases he : t.isEmpty = true
    · unfold parseSignedVisitorId
      rw [if_pos he]
    · unfold parseSignedVisitorId
      rw [if_neg he]
      rcases hsp : splitOnChar '.' t with _ | ⟨a, _ | ⟨b, _ | ⟨c, _ | ⟨d, tl⟩⟩⟩⟩
      · exact absurd hsp (splitOnChar_ne_nil '.' t)
      · rfl
      · rfl
      · rcases hpi : parseIntBase10 c with - | k
        · simp [hpi]
        · by_cases hab : (a.isEmpty || b.isEmpty) = true
          · simp [hpi, hab]
          · exfalso
            simp only [Bool.or_eq_true, List.isEmpty_eq_true, not_or] at hab
            exact hne ⟨a, b, c, k, hsp, hab.1, hab.2, hpi⟩
      · rfl

theorem parse_some_props {t : Str} {p : ParsedId}
    (h : parseSignedVisitorId t = some p) :
    p.visitorId ≠ [] ∧ p.signature ≠ [] ∧ t.isEmpty = false := by
  have htE : t.isEmpty = false := by
    by_cases he : t.isEmpty = true
    · unfold parseSignedVisitorId at h
      rw [if_pos he] at h
      exact absurd h (by simp)
    · revert he
      cases t.isEmpty <;> simp
  unfold parseSignedVisitorId at h
  rw [htE] at h
  simp only [Bool.false_eq_true, if_false] at h
  split at h
  · split at h
    · exact absurd h (by simp)
    · split at h
      · exact absurd h (by simp)
      · rename_i hab
        simp only [Option.some.injEq] at h
        simp only [Bool.or_eq_true, List.isEmpty_eq_true, not_or] at hab
        subst h
        exact ⟨hab.1, hab.2, htE⟩
  · exact absurd h (by simp)

theorem scoreOfRecent_cons_score (s : SessionRow) (l : List SessionRow) :
    (scoreOfRecent l).score ≤ (scoreOfRecent (s :: l)).score := by
  match l with
  | [] =>
    have h0 : (scoreOfRecent []).score = 0 := rfl
    rw [h0]
    unfold scoreOfRecent
    simp only [List.isEmpty_cons, Bool.false_eq_true, if_false]
    exact round2_nonneg (by
      have h1 := visitFactor_nonneg ([s] : List SessionRow).length
      have h2 := ipFactor_nonneg (uniqueIPsOf [s]) ([s] : List SessionRow).length
      have h3 := timeFactor_nonneg
        ((maxList ([s].map (fun s => s.firstSeen)) -
          minList ([s].map (fun s => s.firstSeen)) + (MS_PER_DAY - 1)) /
            MS_PER_DAY)
      linarith)
  | t :: ts =>
    unfold scoreOfRecent
    simp only [List.isEmpty_cons, Bool.false_eq_true, if_false, List.map_cons]
    apply round2_mono
    have hlen : (t :: ts).length ≤ (s :: t :: ts).length := by simp
    have hmin := minList_cons_le s.firstSeen ((t :: ts).map (fun x => x.firstSeen))
      (by simp)
    have hmax := le_maxList_cons s.firstSeen ((t :: ts).map (fun x => x.firstSeen))
      (by simp)
    have hmm := minList_le_maxList ((t :: ts).map (fun x => x.firstSeen))
    have hday :
        (maxList ((t :: ts).map (fun x => x.firstSeen)) -
            minList ((t :: ts).map (fun x => x.firstSeen)) + (MS_PER_DAY - 1)) /
          MS_PER_DAY ≤
        (maxList (s.firstSeen :: (t :: ts).map (fun x => x.firstSeen)) -
            minList (s.firstSeen :: (t :: ts).map (fun x => x.firstSeen)) +
              (MS_PER_DAY - 1)) / MS_PER_DAY := by
      apply Nat.div_le_div_right
      omega
    have hf1 := visitFactor_mono hlen
    have hf2 := ipFactor_mono (uniqueIPsOf_cons_le s (t :: ts)) hlen
    have hf3 := timeFactor_mono hday
    simp only [List.map_cons] at *
    linarith

/-- C4: the crowd-blending scorer over a visitor's last-7-day sessions
agrees with the spec's formula: tier-table factors summed and rounded to 2
decimals, distinct non-null IPs, `day_span = ceil((latest − earliest)/1
day)`, `(0, NEW)` for zero recent sessions, and trust level VERIFIED iff
score ≥ 0.7, else TRUSTED iff visits ≥ 3 and uniqueIPs ≥ 2, else
RETURNING iff visits ≥ 2, else NEW. -/
theorem calculateCrowdBlendingScore_meets_spec :
    ∀ (sessions : List SessionRow) (visitorId : Str) (now : Nat),
    calculateCrowdBlendingScore sessions visitorId now =
      crowdScoreSpec sessions visitorId now := by
  intro sessions visitorId now
  unfold calculateCrowdBlendingScore crowdScoreSpec
  generalize recentSessions sessions visitorId now = recent
  by_cases h : recent.isEmpty
  · simp [scoreOfRecent, specOfRecent, h]
  · simp only [scoreOfRecent, specOfRecent, uniqueIPsOf, h,
      Bool.false_eq_true, if_false]
    rw [List.card_toFinset]
    rw [ceil_div_toNat _ _ (by norm_num [MS_PER_DAY])]
    rw [round2_factors]

/-- C8: the crowd-blending score is monotone in session history — adding
one session (any visitor, any IP, any timestamp) never decreases the
returned score. -/
theorem crowdScore_monotone :
    ∀ (s : SessionRow) (sessions : List SessionRow) (visitorId : Str)
      (now : Nat),
    (calculateCrowdBlendingScore sessions visitorId now).score ≤
      (calculateCrowdBlendingScore (s :: sessions) visitorId now).score := by
  intro s sessions visitorId now
  unfold calculateCrowdBlendingScore recentSessions
  rw [List.filter_cons]
  by_cases hp : (decide (s.visitorId = visitorId) &&
      decide (now - SEVEN_DAYS_MS ≤ s.firstSeen)) = true
  · rw [if_pos hp]
    exact scoreOfRecent_cons_score s _
  · rw [if_neg hp]

/-! ### Helper lemmas: the fuzzy scan -/

theorem scanStep_none {target : Str} {k : Nat} {c : Nat × Str × Str}
    (best : Option BestMatch) (hd : hammingDistance c.2.2 target = none) :
    scanStep target k best c = best := by
  unfold scanStep
  rw [hd]

theorem scanStep_far {target : Str} {k d : Nat} {c : Nat × Str × Str}
    (best : Option BestMatch) (hd : hammingDistance c.2.2 target = some d)
    (hdk : ¬ d ≤ k) : scanStep target k best c = best := by
  unfold scanStep
  rw [hd]
  simp [hdk]

theorem scanStep_new {target : Str} {k d : Nat} {c : Nat × Str × Str}
    (hd : hammingDistance c.2.2 target = some d) (hdk : d ≤ k) :
    scanStep target k none c = some ⟨c.1, c.2.1, d⟩ := by
  unfold scanStep
  rw [hd]
  simp [hdk]

theorem scanStep_better {target : Str} {k d : Nat} {c : Nat × Str × Str}
    {b : BestMatch} (hd : hammingDistance c.2.2 target = some d)
    (hdk : d ≤ k) (hlt : d < b.distance) :
    scanStep target k (some b) c = some ⟨c.1, c.2.1, d⟩ := by
  unfold scanStep
  rw [hd]
  simp [hdk, hlt]

theorem scanStep_keep {target : Str} {k d : Nat} {c : Nat × Str × Str}
    {b : BestMatch} (hd : hammingDistance c.2.2 target = some d)
    (hdk : d ≤ k) (hlt : ¬ d < b.distance) :
    scanStep target k (some b) c = some b := by
  unfold scanStep
  rw [hd]
  simp [hdk, hlt]

theorem scanGood_extend_notqual {target : Str} {k : Nat}
    {processed : List (Nat × Str × Str)} {best : Option BestMatch}
    {c : Nat × Str × Str} (h : scanGood target k processed best)
    (hc : ∀ d, hammingDistance c.2.2 target = some d → ¬ d ≤ k) :
    scanGood target k (processed ++ [c]) best := by
  rcases best with - | b
  · intro c' hc' d' hd'
    rcases List.mem_append.mp hc' with hmem | hmem
    · exact h c' hmem d' hd'
    · simp only [List.mem_singleton] at hmem
      subst hmem
      exact hc d' hd'
  · obtain ⟨h1, ⟨pre, cb, post, hdec, hb, hham, hpre⟩, hmin⟩ := h
    refine ⟨h1, ⟨pre, cb, post ++ [c], by rw [hdec]; simp, hb, hham, hpre⟩, ?_⟩
    intro c' hc' d' hd' hd'k
    rcases List.mem_append.mp hc' with hmem | hmem
    · exact hmin c' hmem d' hd' hd'k
    · simp only [List.mem_singleton] at hmem
      subst hmem
      exact absurd hd'k (hc d' hd')

theorem scanGood_step {target : Str} {k : Nat}
    {processed : List (Nat × Str × Str)} {best : Option BestMatch}
    (c : Nat × Str × Str) (h : scanGood target k processed best) :
    scanGood target k (processed ++ [c]) (scanStep target k best c) := by
  rcases hd : hammingDistance c.2.2 target with - | d
  · rw [scanStep_none best hd]
    exact scanGood_extend_notqual h (fun d' hd' => by
      rw [hd] at hd'
      exact absurd hd' (by simp))
  · by_cases hdk : d ≤ k
    · rcases best with - | b
      · rw [scanStep_new hd hdk]
        refine ⟨hdk, ⟨processed, c, [], rfl, rfl, hd, ?_⟩, ?_⟩
        · intro c' hc' d' hd' hd'k
          exact absurd hd'k (h c' hc' d' hd')
        · intro c' hc' d' hd' hd'k
          rcases List.mem_append.mp hc' with hmem | hmem
          · exact absurd hd'k (h c' hmem d' hd')
          · simp only [List.mem_singleton] at hmem
            subst hmem
            rw [hd] at hd'
            simp only [Option.some.injEq] at hd'
            show d ≤ d'
            omega
      · obtain ⟨h1, ⟨pre, cb, post, hdec, hb, hham, hpre⟩, hmin⟩ := h
        by_cases hlt : d < b.distance
        · rw [scanStep_better hd hdk hlt]
          refine ⟨hdk, ⟨processed, c, [], rfl, rfl, hd, ?_⟩, ?_⟩
          · intro c' hc' d' hd' hd'k
            exact lt_of_lt_of_le hlt (hmin c' hc' d' hd' hd'k)
          · intro c' hc' d' hd' hd'k
            rcases List.mem_append.mp hc' with hmem | hmem
            · exact le_of_lt (lt_of_lt_of_le hlt (hmin c' hmem d' hd' hd'k))
            · simp only [List.mem_singleton] at hmem
              subst hmem
              rw [hd] at hd'
              simp only [Option.some.injEq] at hd'
              show d ≤ d'
              omega
        · rw [scanStep_keep hd hdk hlt]
          refine ⟨h1, ⟨pre, cb, post ++ [c], by rw [hdec]; simp, hb, hham,
            hpre⟩, ?_⟩
          intro c' hc' d' hd' hd'k
          rcases List.mem_append.mp hc' with hmem | hmem
          · exact hmin c' hmem d' hd' hd'k
          · simp only [List.mem_singleton] at hmem
            subst hmem
            rw [hd] at hd'
            simp only [Option.some.injEq] at hd'
            omega
    · rw [scanStep_far best hd hdk]
      exact scanGood_extend_notqual h (fun d' hd' => by
        rw [hd] at hd'
        simp only [Option.some.injEq] at hd'
        omega)

theorem scanGood_fold {target : Str} {k : Nat} :
    ∀ (cands processed : List (Nat × Str × Str)) (best : Option BestMatch),
    scanGood target k processed best →
    scanGood target k (processed ++ cands)
      (cands.foldl (scanStep target k) best) := by
  intro cands
  induction cands with
  | nil =>
    intro processed best h
    simpa using h
  | cons c cs ih =>
    intro processed best h
    have h2 := ih (processed ++ [c]) (scanStep target k best c)
      (scanGood_step c h)
    rw [List.append_assoc] at h2
    simpa using h2

theorem scanBest_good (target : Str) (k : Nat)
    (cands : List (Nat × Str × Str)) :
    scanGood target k cands (scanBest target k cands) := by
  have h := @scanGood_fold target k cands [] none (by
    intro c hc
    exact absurd hc (List.not_mem_nil c))
  simpa [scanBest] using h

theorem scanBest_isSome_iff (target : Str) (k : Nat)
    (cands : List (Nat × Str × Str)) :
    (scanBest target k cands).isSome = true ↔
      ∃ c ∈ cands, ∃ d, hammingDistance c.2.2 target = some d ∧ d ≤ k := by
  have hg := scanBest_good target k cands
  rcases hb : scanBest target k cands with - | b <;> rw [hb] at hg
  · simp only [Option.isSome_none, Bool.false_eq_true, false_iff]
    rintro ⟨c, hc, d, hd, hdk⟩
    exact hg c hc d hd hdk
  · simp only [Option.isSome_some, true_iff]
    obtain ⟨h1, ⟨pre, cb, post, hdec, -, hham, -⟩, -⟩ := hg
    exact ⟨cb, by rw [hdec]; simp, b.distance, hham, h1⟩

theorem scanBest_skip (target : Str) (k : Nat) (c : Nat × Str × Str)
    (rest : List (Nat × Str × Str)) (h : c.2.2.length ≠ target.length) :
    scanBest target k (c :: rest) = scanBest target k rest := by
  unfold scanBest
  rw [List.foldl_cons,
    scanStep_none none (by unfold hammingDistance; rw [if_pos h])]

theorem scanBest_some_props (target : Str) (k : Nat)
    (cands : List (Nat × Str × Str)) (b : BestMatch)
    (h : scanBest target k cands = some b) :
    b.distance ≤ k
    ∧ (∀ c ∈ cands, ∀ d, hammingDistance c.2.2 target = some d →
        d ≤ k → b.distance ≤ d)
    ∧ ∃ pre cb post, cands = pre ++ cb :: post ∧
        b = ⟨cb.1, cb.2.1, b.distance⟩ ∧
        hammingDistance cb.2.2 target = some b.distance ∧
        ∀ c' ∈ pre, ∀ d', hammingDistance c'.2.2 target = some d' →
          d' ≤ k → b.distance < d' := by
  have hg := scanBest_good target k cands
  rw [h] at hg
  obtain ⟨h1, hdec, hmin⟩ := hg
  exact ⟨h1, hmin, hdec⟩

/-! ### Helper lemmas: the matching layers -/

theorem layerExact_none_iff (db : Db) (inp : FingerprintInput) (now : Nat) :
    layerExact db inp now = none ↔
      db.fingerprints.find?
        (fun row => row.fingerprintHash == inp.fingerprint) = none := by
  unfold layerExact
  rcases h : db.fingerprints.find?
      (fun row => row.fingerprintHash == inp.fingerprint) with - | em <;>
    rw [h] <;> simp

theorem layerExact_some {db : Db} {inp : FingerprintInput} {now : Nat}
    {r : MatchResult} {db1 : Db} (h : layerExact db inp now = some (r, db1)) :
    ∃ em, db.fingerprints.find?
        (fun row => row.fingerprintHash == inp.fingerprint) = some em ∧
      r = ⟨.exact,
        (applyMatchValidation
          ((⟨em.visitorId, em.id, inp.ipAddress, now⟩ : SessionRow) ::
            db.sessions) em.visitorId .exact 1 now).1,
        em.visitorId, em.id, false⟩ ∧
      db1 = addSession db em.visitorId em.id inp.ipAddress now := by
  unfold layerExact at h
  rcases hf : db.fingerprints.find?
      (fun row => row.fingerprintHash == inp.fingerprint) with - | em <;>
    rw [hf] at h
  · exact absurd h (by simp)
  · simp only [Option.some.injEq, Prod.mk.injEq] at h
    exact ⟨em, hf, h.1.symm, h.2.symm⟩

theorem layerStable_none_iff (db : Db) (inp : FingerprintInput) (now : Nat) :
    layerStable db inp now = none ↔ stableHitRow db inp = none := by
  unfold layerStable stableHitRow
  rcases hs : inp.stableHash with - | sh
  · simp
  · by_cases he : sh.isEmpty
    · simp [he]
    · simp only [he, Bool.false_eq_true, if_false]
      rcases hf : db.fingerprints.find? (fun row => row.stableHash == some sh)
          with - | sm <;> rw [hf] <;> simp

theorem layerStable_some {db : Db} {inp : FingerprintInput} {now : Nat}
    {r : MatchResult} {db1 : Db} (h : layerStable db inp now = some (r, db1)) :
    ∃ sm, stableHitRow db inp = some sm ∧
      r = ⟨.stable,
        (applyMatchValidation db.sessions sm.visitorId .stable 0.95 now).1,
        sm.visitorId, db.nextFpId, false⟩ ∧
      db1 = addSession
        (addFingerprint db (mkFpRow db inp
          (applyMatchValidation db.sessions sm.visitorId .stable 0.95 now).1
          sm.visitorId))
        sm.visitorId db.nextFpId inp.ipAddress now := by
  unfold layerStable at h
  rcases hs : inp.stableHash with - | sh <;> simp only [hs] at h
  · exact absurd h (by simp)
  · by_cases he : sh.isEmpty
    · rw [if_pos he] at h
      exact absurd h (by simp)
    · rw [if_neg he] at h
      rcases hf : db.fingerprints.find? (fun row => row.stableHash == some sh)
          with - | sm <;> rw [hf] at h
      · exact absurd h (by simp)
      · have hspec : stableHitRow db inp = some sm := by
          unfold stableHitRow
          simp only [hs]
          rw [if_neg he, hf]
        simp only [Option.some.injEq, Prod.mk.injEq] at h
        exact ⟨sm, hspec, h.1.symm, h.2.symm⟩

theorem layerGpu_none_iff (db : Db) (inp : FingerprintInput) (now : Nat) :
    layerGpu db inp now = none ↔ gpuHitRow db inp = none := by
  unfold layerGpu gpuHitRow
  rcases hs : validatedGpuHash inp with - | gh
  · simp
  · by_cases he : gh.isEmpty
    · simp [he]
    · simp only [he, Bool.false_eq_true, if_false]
      rcases hf : db.fingerprints.find?
          (fun row => row.gpuTimingHash == some gh) with - | gm <;>
        rw [hf] <;> simp

theorem layerGpu_some {db : Db} {inp : FingerprintInput} {now : Nat}
    {r : MatchResult} {db1 : Db} (h : layerGpu db inp now = some (r, db1)) :
    ∃ gm, gpuHitRow db inp = some gm ∧
      r = ⟨.gpu,
        (applyMatchValidation db.sessions gm.visitorId .gpu 0.92 now).1,
        gm.visitorId, db.nextFpId, false⟩ ∧
      db1 = addSession
        (addFingerprint db (mkFpRow db inp
          (applyMatchValidation db.sessions gm.visitorId .gpu 0.92 now).1
          gm.visitorId))
        gm.visitorId db.nextFpId inp.ipAddress now := by
  unfold layerGpu at h
  rcases hs : validatedGpuHash inp with - | gh <;> simp only [hs] at h
  · exact absurd h (by simp)
  · by_cases he : gh.isEmpty
    · rw [if_pos he] at h
      exact absurd h (by simp)
    · rw [if_neg he] at h
      rcases hf : db.fingerprints.find?
          (fun row => row.gpuTimingHash == some gh) with - | gm <;>
        rw [hf] at h
      · exact absurd h (by simp)
      · have hspec : gpuHitRow db inp = some gm := by
          unfold gpuHitRow
          simp only [hs]
          rw [if_neg he, hf]
        simp only [Option.some.injEq, Prod.mk.injEq] at h
        exact ⟨gm, hspec, h.1.symm, h.2.symm⟩

theorem layerFuzzyStable_none_iff (db : Db) (inp : FingerprintInput)
    (now : Nat) :
    layerFuzzyStable db inp now = none ↔ fsBestSpec db inp = none := by
  unfold layerFuzzyStable fsBestSpec
  rcases hs : inp.stableHash with - | sh
  · simp
  · by_cases he : sh.isEmpty
    · simp [he]
    · simp only [he, Bool.false_eq_true, if_false]
      rcases hb : scanBest sh 4 (stableCands db) with - | b <;> simp

theorem layerFuzzyStable_some {db : Db} {inp : FingerprintInput} {now : Nat}
    {r : MatchResult} {db1 : Db}
    (h : layerFuzzyStable db inp now = some (r, db1)) :
    ∃ b, fsBestSpec db inp = some b ∧
      r = ⟨.fuzzyStable,
        (applyMatchValidation db.sessions b.visitorId .fuzzyStable
          (1 - (b.distance : ℚ) / 64) now).1,
        b.visitorId, db.nextFpId, false⟩ ∧
      db1 = addSession
        (addFingerprint db (mkFpRow db inp
          (applyMatchValidation db.sessions b.visitorId .fuzzyStable
            (1 - (b.distance : ℚ) / 64) now).1 b.visitorId))
        b.visitorId db.nextFpId inp.ipAddress now := by
  unfold layerFuzzyStable at h
  rcases hs : inp.stableHash with - | sh <;> simp only [hs] at h
  · exact absurd h (by simp)
  · by_cases he : sh.isEmpty
    · rw [if_pos he] at h
      exact absurd h (by simp)
    · rw [if_neg he] at h
      rcases hb : scanBest sh 4 (stableCands db) with - | b <;> rw [hb] at h
      · exact absurd h (by simp)
      · have hspec : fsBestSpec db inp = some b := by
          unfold fsBestSpec
          simp only [hs]
          rw [if_neg he, hb]
        simp only [Option.some.injEq, Prod.mk.injEq] at h
        exact ⟨b, hspec, h.1.symm, h.2.symm⟩

theorem layerFuzzy_none_iff (db : Db) (inp : FingerprintInput) (now : Nat) :
    layerFuzzy db inp now = none ↔ fuzzyBestSpec db inp = none := by
  unfold layerFuzzy fuzzyBestSpec
  rcases hb : scanBest inp.fuzzyHash 8 (fuzzyCands db) with - | b <;> simp

theorem layerFuzzy_some {db : Db} {inp : FingerprintInput} {now : Nat}
    {r : MatchResult} {db1 : Db} (h : layerFuzzy db inp now = some (r, db1)) :
    ∃ b, fuzzyBestSpec db inp = some b ∧
      r = ⟨.fuzzy,
        (applyMatchValidation db.sessions b.visitorId .fuzzy
          (1 - (b.distance : ℚ) / 64) now).1,
        b.visitorId, db.nextFpId, false⟩ ∧
      db1 = addSession
        (addFingerprint db (mkFpRow db inp
          (applyMatchValidation db.sessions b.visitorId .fuzzy
            (1 - (b.distance : ℚ) / 64) now).1 b.visitorId))
        b.visitorId db.nextFpId inp.ipAddress now := by
  unfold layerFuzzy at h
  rcases hb : scanBest inp.fuzzyHash 8 (fuzzyCands db) with - | b <;>
    simp only [hb] at h
  · exact absurd h (by simp)
  · have hspec : fuzzyBestSpec db inp = some b := by
      unfold fuzzyBestSpec
      rw [hb]
    simp only [Option.some.injEq, Prod.mk.injEq] at h
    exact ⟨b, hspec, h.1.symm, h.2.symm⟩

theorem layerNew_eq (db : Db) (inp : FingerprintInput) (now : Nat) :
    layerNew db inp now =
      (⟨.new, 1, freshVisitorId db, db.nextFpId, true⟩,
        addSession
          { db with
              fingerprints :=
                mkFpRow db inp 1 (freshVisitorId db) :: db.fingerprints,
              nextFpId := db.nextFpId + 1,
              visitors := freshVisitorId db :: db.visitors,
              nextVisitorNum := db.nextVisitorNum + 1 }
          (freshVisitorId db) db.nextFpId inp.ipAddress now) := rfl

theorem matchFingerprint_unfold (db : Db) (inp : FingerprintInput)
    (now : Nat) :
    matchFingerprint db inp now =
      match layerExact db inp now with
      | some r => r
      | none =>
        match layerStable db inp now with
        | some r => r
        | none =>
          match layerGpu db inp now with
          | some r => r
          | none =>
            match layerFuzzyStable db inp now with
            | some r => r
            | none =>
              match layerFuzzy db inp now with
              | some r => r
              | none => layerNew db inp now := rfl

theorem stableHitRow_none_of_falsy {db : Db} {inp : FingerprintInput}
    (h : truthyStr inp.stableHash = false) : stableHitRow db inp = none := by
  unfold stableHitRow
  rcases hs : inp.stableHash with - | sh
  · rfl
  · unfold truthyStr at h
    simp only [hs] at h
    simp at h
    simp [h]

theorem fsBestSpec_none_of_falsy {db : Db} {inp : FingerprintInput}
    (h : truthyStr inp.stableHash = false) : fsBestSpec db inp = none := by
  unfold fsBestSpec
  rcases hs : inp.stableHash with - | sh
  · rfl
  · unfold truthyStr at h
    simp only [hs] at h
    simp at h
    simp [h]

theorem validatedGpuHash_none_of_invalid {inp : FingerprintInput}
    (h : isGpuTimingValid inp = false) : validatedGpuHash inp = none := by
  unfold validatedGpuHash
  simp [h]

theorem gpuHitRow_none_of_invalid {db : Db} {inp : FingerprintInput}
    (h : isGpuTimingValid inp = false) : gpuHitRow db inp = none := by
  unfold gpuHitRow
  rw [validatedGpuHash_none_of_invalid h]

theorem mkFpRow_gpu_none {db : Db} {inp : FingerprintInput} {conf : ℚ}
    {vid : Str} (h : isGpuTimingValid inp = false) :
    (mkFpRow db inp conf vid).gpuTimingHash = none :=
  validatedGpuHash_none_of_invalid h

/-- C1: the engine evaluates the six layers strictly in order with the
first hit determining the match type and the matched visitor; the base
confidence fed into the trust adjustment is the layer's table value (1.00
exact, 0.95 stable, 0.92 gpu, `1 − d/64` fuzzy layers, 1.00 new); the
stable layers run only on a submission carrying a stable hash, the GPU
layer only when the gpu-timing signal is validated usable, and an
unvalidated GPU hash is stored as null. -/
theorem matchFingerprint_layers :
    ∀ (db : Db) (inp : FingerprintInput) (now : Nat) (r : MatchResult)
      (db' : Db),
    matchFingerprint db inp now = (r, db') →
    r.matchType = specFirstLayer db inp
    ∧ r.visitorId = specMatchedVisitor db inp
    ∧ (r.matchType = .new → r.confidence = 1)
    ∧ (r.matchType ≠ .new → r.confidence =
        (applyMatchValidation
          (if r.matchType = .exact
           then (⟨r.visitorId, r.fingerprintId, inp.ipAddress, now⟩ :
             SessionRow) :: db.sessions
           else db.sessions)
          r.visitorId r.matchType (specBase db inp) now).1)
    ∧ (truthyStr inp.stableHash = false →
        specFirstLayer db inp ≠ .stable ∧ specFirstLayer db inp ≠ .fuzzyStable)
    ∧ (isGpuTimingValid inp = false →
        specFirstLayer db inp ≠ .gpu ∧
        ∀ row ∈ db'.fingerprints, row ∈ db.fingerprints ∨
          row.gpuTimingHash = none) := by
  intro db inp now r db' h
  rw [matchFingerprint_unfold] at h
  rcases hl1 : layerExact db inp now with - | ⟨r1, db1⟩ <;>
    simp only [hl1] at h
  · have hfE : db.fingerprints.find?
        (fun row => row.fingerprintHash == inp.fingerprint) = none :=
      (layerExact_none_iff db inp now).mp hl1
    rcases hl2 : layerStable db inp now with - | ⟨r2, db2⟩ <;>
      simp only [hl2] at h
    · have hSH : stableHitRow db inp = none :=
        (layerStable_none_iff db inp now).mp hl2
      rcases hl3 : layerGpu db inp now with - | ⟨r3, db3⟩ <;>
        simp only [hl3] at h
      · have hGH : gpuHitRow db inp = none :=
          (layerGpu_none_iff db inp now).mp hl3
        rcases hl4 : layerFuzzyStable db inp now with - | ⟨r4, db4⟩ <;>
          simp only [hl4] at h
        · have hFS : fsBestSpec db inp = none :=
            (layerFuzzyStable_none_iff db inp now).mp hl4
          rcases hl5 : layerFuzzy db inp now with - | ⟨r5, db5⟩ <;>
            simp only [hl5] at h
          · have hFZ : fuzzyBestSpec db inp = none :=
              (layerFuzzy_none_iff db inp now).mp hl5
            rw [layerNew_eq] at h
            injection h with hr hdb
            subst hr
            subst hdb
            refine ⟨?_, ?_, ?_, ?_, ?_, ?_⟩
            · simp [specFirstLayer, exactHit, hfE, hSH, hGH, hFS, hFZ]
            · simp [specMatchedVisitor, hfE, hSH, hGH, hFS, hFZ]
            · intro _h
              rfl
            · intro hne
              exact absurd rfl hne
            · intro _ht
              constructor <;>
                simp [specFirstLayer, exactHit, hfE, hSH, hGH, hFS, hFZ]
            · intro hg
              refine ⟨by
                simp [specFirstLayer, exactHit, hfE, hSH, hGH, hFS, hFZ], ?_⟩
              intro row hrow
              simp only [addSession] at hrow
              rcases List.mem_cons.mp hrow with hr0 | hr0
              · right
                rw [hr0]
                exact mkFpRow_gpu_none hg
              · left
                exact hr0
          · obtain ⟨b, hb, hrv, hdbv⟩ := layerFuzzy_some hl5
            injection h with hr hdb
            subst hr
            subst hdb
            subst hrv
            subst hdbv
            refine ⟨?_, ?_, ?_, ?_, ?_, ?_⟩
            · simp [specFirstLayer, exactHit, hfE, hSH, hGH, hFS, hb]
            · simp [specMatchedVisitor, hfE, hSH, hGH, hFS, hb]
            · intro hmt
              exact absurd hmt (by simp)
            · intro _hne
              simp [specBase, exactHit, hfE, hSH, hGH, hFS, hb]
            · intro _ht
              constructor <;>
                simp [specFirstLayer, exactHit, hfE, hSH, hGH, hFS, hb]
            · intro hg
              refine ⟨by
                simp [specFirstLayer, exactHit, hfE, hSH, hGH, hFS, hb], ?_⟩
              intro row hrow
              simp only [addSession, addFingerprint] at hrow
              rcases List.mem_cons.mp hrow with hr0 | hr0
              · right
                rw [hr0]
                exact mkFpRow_gpu_none hg
              · left
                exact hr0
        · obtain ⟨b, hb, hrv, hdbv⟩ := layerFuzzyStable_some hl4
          injection h with hr hdb
          subst hr
          subst hdb
          subst hrv
          subst hdbv
          refine ⟨?_, ?_, ?_, ?_, ?_, ?_⟩
          · simp [specFirstLayer, exactHit, hfE, hSH, hGH, hb]
          · simp [specMatchedVisitor, hfE, hSH, hGH, hb]
          · intro hmt
            exact absurd hmt (by simp)
          · intro _hne
            simp [specBase, exactHit, hfE, hSH, hGH, hb]
          · intro ht
            have hn := @fsBestSpec_none_of_falsy db inp ht
            rw [hb] at hn
            exact absurd hn (by simp)
          · intro hg
            refine ⟨by
              simp [specFirstLayer, exactHit, hfE, hSH, hGH, hb], ?_⟩
            intro row hrow
            simp only [addSession, addFingerprint] at hrow
            rcases List.mem_cons.mp hrow with hr0 | hr0
            · right
              rw [hr0]
              exact mkFpRow_gpu_none hg
            · left
              exact hr0
      · obtain ⟨gm, hgm, hrv, hdbv⟩ := layerGpu_some hl3
        injection h with hr hdb
        subst hr
        subst hdb
        subst hrv
        subst hdbv
        refine ⟨?_, ?_, ?_, ?_, ?_, ?_⟩
        · simp [specFirstLayer, exactHit, hfE, hSH, hgm]
        · simp [specMatchedVisitor, hfE, hSH, hgm]
        · intro hmt
          exact absurd hmt (by simp)
        · intro _hne
          simp [specBase, exactHit, hfE, hSH, hgm]
        · intro _ht
          constructor <;> simp [specFirstLayer, exactHit, hfE, hSH, hgm]
        · intro hg
          have hn := @gpuHitRow_none_of_invalid db inp hg
          rw [hgm] at hn
          exact absurd hn (by simp)
    · obtain ⟨sm, hsm, hrv, hdbv⟩ := layerStable_some hl2
      injection h with hr hdb
      subst hr
      subst hdb
      subst hrv
      subst hdbv
      refine ⟨?_, ?_, ?_, ?_, ?_, ?_⟩
      · simp [specFirstLayer, exactHit, hfE, hsm]
      · simp [specMatchedVisitor, hfE, hsm]
      · intro hmt
        exact absurd hmt (by simp)
      · intro _hne
        simp [specBase, exactHit, hfE, hsm]
      · intro ht
        have hn := @stableHitRow_none_of_falsy db inp ht
        rw [hsm] at hn
        exact absurd hn (by simp)
      · intro hg
        refine ⟨by simp [specFirstLayer, exactHit, hfE, hsm], ?_⟩
        intro row hrow
        simp only [addSession, addFingerprint] at hrow
        rcases List.mem_cons.mp hrow with hr0 | hr0
        · right
          rw [hr0]
          exact mkFpRow_gpu_none hg
        · left
          exact hr0
  · obtain ⟨em, hfind, hrv, hdbv⟩ := layerExact_some hl1
    injection h with hr hdb
    subst hr
    subst hdb
    subst hrv
    subst hdbv
    refine ⟨?_, ?_, ?_, ?_, ?_, ?_⟩
    · simp [specFirstLayer, exactHit, hfind]
    · simp [specMatchedVisitor, hfind]
    · intro hmt
      exact absurd hmt (by simp)
    · intro _hne
      simp [specBase, exactHit, hfind]
    · intro _ht
      constructor <;> simp [specFirstLayer, exactHit, hfind]
    · intro _hg
      refine ⟨by simp [specFirstLayer, exactHit, hfind], ?_⟩
      intro row hrow
      simp only [addSession] at hrow
      left
      exact hrow

/-- C1 (witness): on an empty store every layer misses and the submission
creates a new visitor with confidence 1. -/
theorem matchFingerprint_layers_witness :
    (matchFingerprint ⟨[], [], [], 0, 0⟩
      ⟨List.replicate 64 'a', List.replicate 64 'b', none, none, none, none,
        none⟩ 5).1.matchType =
      specFirstLayer ⟨[], [], [], 0, 0⟩
        ⟨List.replicate 64 'a', List.replicate 64 'b', none, none, none,
          none, none⟩ :=
  (matchFingerprint_layers ⟨[], [], [], 0, 0⟩
    ⟨List.replicate 64 'a', List.replicate 64 'b', none, none, none, none,
      none⟩ 5
    (matchFingerprint ⟨[], [], [], 0, 0⟩
      ⟨List.replicate 64 'a', List.replicate 64 'b', none, none, none, none,
        none⟩ 5).1
    (matchFingerprint ⟨[], [], [], 0, 0⟩
      ⟨List.replicate 64 'a', List.replicate 64 'b', none, none, none, none,
        none⟩ 5).2 rfl).1

/-- C9: every accepted submission writes exactly one session row,
referencing the chosen visitor and fingerprint; an exact match writes no
fingerprint row and reuses the matched one; layers 2–5 write exactly one
fingerprint row under the matched visitor carrying the final confidence
and the submission's farbling flag; the new-visitor terminal creates the
visitor together with its first fingerprint row (confidence 1). -/
theorem matchFingerprint_persistence :
    ∀ (db : Db) (inp : FingerprintInput) (now : Nat) (r : MatchResult)
      (db' : Db),
    matchFingerprint db inp now = (r, db') →
    db'.sessions =
      (⟨r.visitorId, r.fingerprintId, inp.ipAddress, now⟩ : SessionRow) ::
        db.sessions
    ∧ (r.matchType = .exact →
        db'.fingerprints = db.fingerprints ∧
        ∃ row ∈ db.fingerprints, row.id = r.fingerprintId ∧
          row.visitorId = r.visitorId)
    ∧ (r.matchType ≠ .exact → r.matchType ≠ .new →
        ∃ row, db'.fingerprints = row :: db.fingerprints ∧
          row.id = r.fingerprintId ∧ row.visitorId = r.visitorId ∧
          row.confidence = r.confidence ∧
          row.isFarbled = inp.isFarbled.getD false)
    ∧ (r.matchType = .new →
        ∃ row, db'.fingerprints = row :: db.fingerprints ∧
          row.id = r.fingerprintId ∧ row.visitorId = r.visitorId ∧
          row.confidence = 1 ∧ row.isFarbled = inp.isFarbled.getD false ∧
          db'.visitors = r.visitorId :: db.visitors ∧
          r.isNewVisitor = true) := by
  intro db inp now r db' h
  rw [matchFingerprint_unfold] at h
  rcases hl1 : layerExact db inp now with - | ⟨r1, db1⟩ <;>
    simp only [hl1] at h
  · rcases hl2 : layerStable db inp now with - | ⟨r2, db2⟩ <;>
      simp only [hl2] at h
    · rcases hl3 : layerGpu db inp now with - | ⟨r3, db3⟩ <;>
        simp only [hl3] at h
      · rcases hl4 : layerFuzzyStable db inp now with - | ⟨r4, db4⟩ <;>
          simp only [hl4] at h
        · rcases hl5 : layerFuzzy db inp now with - | ⟨r5, db5⟩ <;>
            simp only [hl5] at h
          · rw [layerNew_eq] at h
            injection h with hr hdb
            subst hr
            subst hdb
            refine ⟨rfl, ?_, ?_, ?_⟩
            · intro hmt
              exact absurd hmt (by simp)
            · intro _hmt hne
              exact absurd rfl hne
            · intro _hmt
              exact ⟨_, rfl, rfl, rfl, rfl, rfl, rfl, rfl⟩
          · obtain ⟨b, hb, hrv, hdbv⟩ := layerFuzzy_some hl5
            injection h with hr hdb
            subst hr
            subst hdb
            subst hrv
            subst hdbv
            refine ⟨rfl, ?_, ?_, ?_⟩
            · intro hmt
              exact absurd hmt (by simp)
            · intro _h1 _h2
              exact ⟨_, rfl, rfl, rfl, rfl, rfl⟩
            · intro hmt
              exact absurd hmt (by simp)
        · obtain ⟨b, hb, hrv, hdbv⟩ := layerFuzzyStable_some hl4
          injection h with hr hdb
          subst hr
          subst hdb
          subst hrv
          subst hdbv
          refine ⟨rfl, ?_, ?_, ?_⟩
          · intro hmt
            exact absurd hmt (by simp)
          · intro _h1 _h2
            exact ⟨_, rfl, rfl, rfl, rfl, rfl⟩
          · intro hmt
            exact absurd hmt (by simp)
      · obtain ⟨gm, hgm, hrv, hdbv⟩ := layerGpu_some hl3
        injection h with hr hdb
        subst hr
        subst hdb
        subst hrv
        subst hdbv
        refine ⟨rfl, ?_, ?_, ?_⟩
        · intro hmt
          exact absurd hmt (by simp)
        · intro _h1 _h2
          exact ⟨_, rfl, rfl, rfl, rfl, rfl⟩
        · intro hmt
          exact absurd hmt (by simp)
    · obtain ⟨sm, hsm, hrv, hdbv⟩ := layerStable_some hl2
      injection h with hr hdb
      subst hr
      subst hdb
      subst hrv
      subst hdbv
      refine ⟨rfl, ?_, ?_, ?_⟩
      · intro hmt
        exact absurd hmt (by simp)
      · intro _h1 _h2
        exact ⟨_, rfl, rfl, rfl, rfl, rfl⟩
      · intro hmt
        exact absurd hmt (by simp)
  · obtain ⟨em, hfind, hrv, hdbv⟩ := layerExact_some hl1
    injection h with hr hdb
    subst hr
    subst hdb
    subst hrv
    subst hdbv
    refine ⟨rfl, ?_, ?_, ?_⟩
    · intro _hmt
      exact ⟨rfl, em, List.mem_of_find?_eq_some hfind, rfl, rfl⟩
    · intro hne _h2
      exact absurd rfl hne
    · intro hmt
      exact absurd hmt (by simp)

/-- C9 (witness): on an empty store the single submission writes exactly
one session row referencing the created visitor and fingerprint. -/
theorem matchFingerprint_persistence_witness :
    ((matchFingerprint ⟨[], [], [], 0, 0⟩
        ⟨List.replicate 64 'a', List.replicate 64 'b', none, none, none,
          none, some ['1']⟩ 7).2).sessions =
      [⟨(matchFingerprint ⟨[], [], [], 0, 0⟩
          ⟨List.replicate 64 'a', List.replicate 64 'b', none, none, none,
            none, some ['1']⟩ 7).1.visitorId,
        (matchFingerprint ⟨[], [], [], 0, 0⟩
          ⟨List.replicate 64 'a', List.replicate 64 'b', none, none, none,
            none, some ['1']⟩ 7).1.fingerprintId, some ['1'], 7⟩] :=
  (matchFingerprint_persistence ⟨[], [], [], 0, 0⟩
    ⟨List.replicate 64 'a', List.replicate 64 'b', none, none, none, none,
      some ['1']⟩ 7
    (matchFingerprint ⟨[], [], [], 0, 0⟩
      ⟨List.replicate 64 'a', List.replicate 64 'b', none, none, none, none,
        some ['1']⟩ 7).1
    (matchFingerprint ⟨[], [], [], 0, 0⟩
      ⟨List.replicate 64 'a', List.replicate 64 'b', none, none, none, none,
        some ['1']⟩ 7).2 rfl).1

/-- C3: a fuzzy scan hits iff some candidate in the window has a hash of
equal length within the Hamming threshold; the selected candidate is
within the threshold, minimal, and the first (most recent) among the
qualifying minimizers; length-mismatched candidates are skipped rather
than failing; and — when no earlier layer matched — layer 5 over the
1000-row window with threshold 8 (resp. layer 4 over the 500-row stable
window with threshold 4) matches exactly under that condition, selecting
the scan's best candidate's visitor. -/
theorem fuzzy_scan_selection :
    (∀ (target : Str) (k : Nat) (cands : List (Nat × Str × Str)),
      ((scanBest target k cands).isSome = true ↔
        ∃ c ∈ cands, ∃ d, hammingDistance c.2.2 target = some d ∧ d ≤ k)
      ∧ (∀ c rest, c.2.2.length ≠ target.length →
          scanBest target k (c :: rest) = scanBest target k rest)
      ∧ (∀ b, scanBest target k cands = some b →
          b.distance ≤ k
          ∧ (∀ c ∈ cands, ∀ d, hammingDistance c.2.2 target = some d →
              d ≤ k → b.distance ≤ d)
          ∧ ∃ pre cb post, cands = pre ++ cb :: post ∧
              b = ⟨cb.1, cb.2.1, b.distance⟩ ∧
              hammingDistance cb.2.2 target = some b.distance ∧
              ∀ c' ∈ pre, ∀ d', hammingDistance c'.2.2 target = some d' →
                d' ≤ k → b.distance < d'))
    ∧ (∀ (db : Db) (inp : FingerprintInput) (now : Nat),
        layerExact db inp now = none → layerStable db inp now = none →
        layerGpu db inp now = none → layerFuzzyStable db inp now = none →
        (((matchFingerprint db inp now).1.matchType = .fuzzy ↔
            ∃ c ∈ fuzzyCands db, ∃ d,
              hammingDistance c.2.2 inp.fuzzyHash = some d ∧ d ≤ 8)
         ∧ ∀ b, scanBest inp.fuzzyHash 8 (fuzzyCands db) = some b →
             (matchFingerprint db inp now).1.visitorId = b.visitorId))
    ∧ (∀ (db : Db) (inp : FingerprintInput) (now : Nat),
        layerExact db inp now = none → layerStable db inp now = none →
        layerGpu db inp now = none →
        ∀ sh, inp.stableHash = some sh → ¬ sh.isEmpty = true →
        (((matchFingerprint db inp now).1.matchType = .fuzzyStable ↔
            ∃ c ∈ stableCands db, ∃ d,
              hammingDistance c.2.2 sh = some d ∧ d ≤ 4)
         ∧ ∀ b, scanBest sh 4 (stableCands db) = some b →
             (matchFingerprint db inp now).1.visitorId = b.visitorId)) := by
  refine ⟨fun target k cands => ⟨scanBest_isSome_iff target k cands,
    fun c rest h => scanBest_skip target k c rest h,
    fun b h => scanBest_some_props target k cands b h⟩, ?_, ?_⟩
  · intro db inp now h1 h2 h3 h4
    rcases hl5 : layerFuzzy db inp now with - | ⟨r5, db5⟩
    · have hfb : fuzzyBestSpec db inp = none :=
        (layerFuzzy_none_iff db inp now).mp hl5
      have hmf : matchFingerprint db inp now = layerNew db inp now := by
        rw [matchFingerprint_unfold]
        simp only [h1, h2, h3, h4, hl5]
      rw [hmf, layerNew_eq]
      constructor
      · constructor
        · intro hmt
          exact absurd hmt (by simp)
        · intro hex
          have hs := (scanBest_isSome_iff inp.fuzzyHash 8 (fuzzyCands db)).mpr
            hex
          unfold fuzzyBestSpec at hfb
          rw [hfb] at hs
          simp at hs
      · intro b hb
        unfold fuzzyBestSpec at hfb
        rw [hfb] at hb
        exact absurd hb (by simp)
    · obtain ⟨b, hb, hr, hdb⟩ := layerFuzzy_some hl5
      have hmf : matchFingerprint db inp now = (r5, db5) := by
        rw [matchFingerprint_unfold]
        simp only [h1, h2, h3, h4, hl5]
      rw [hmf]
      subst hr
      constructor
      · constructor
        · intro _hmt
          exact (scanBest_isSome_iff inp.fuzzyHash 8 (fuzzyCands db)).mp
            (by unfold fuzzyBestSpec at hb; rw [hb]; rfl)
        · intro _hex
          rfl
      · intro b2 hb2
        unfold fuzzyBestSpec at hb
        rw [hb2] at hb
        simp only [Option.some.injEq] at hb
        rw [hb]
  · intro db inp now h1 h2 h3 sh hsh he
    have hfsb : fsBestSpec db inp = scanBest sh 4 (stableCands db) := by
      unfold fsBestSpec
      simp only [hsh]
      rw [if_neg he]
    rcases hl4 : layerFuzzyStable db inp now with - | ⟨r4, db4⟩
    · have hfs : fsBestSpec db inp = none :=
        (layerFuzzyStable_none_iff db inp now).mp hl4
      have hscan : scanBest sh 4 (stableCands db) = none := by
        rw [← hfsb]
        exact hfs
      have hmt4 : (matchFingerprint db inp now).1.matchType ≠ .fuzzyStable := by
        rw [matchFingerprint_unfold]
        simp only [h1, h2, h3, hl4]
        rcases hl5 : layerFuzzy db inp now with - | ⟨r5, db5⟩
        · rw [layerNew_eq]
          simp
        · obtain ⟨b, hb, hr, hdb⟩ := layerFuzzy_some hl5
          subst hr
          simp
      constructor
      · constructor
        · intro hmt
          exact absurd hmt hmt4
        · intro hex
          have hs := (scanBest_isSome_iff sh 4 (stableCands db)).mpr hex
          rw [hscan] at hs
          simp at hs
      · intro b hb
        rw [hscan] at hb
        exact absurd hb (by simp)
    · obtain ⟨b, hb, hr, hdb⟩ := layerFuzzyStable_some hl4
      have hmf : matchFingerprint db inp now = (r4, db4) := by
        rw [matchFingerprint_unfold]
        simp only [h1, h2, h3, hl4]
      rw [hmf]
      subst hr
      constructor
      · constructor
        · intro _hmt
          exact (scanBest_isSome_iff sh 4 (stableCands db)).mp
            (by rw [← hfsb, hb]; rfl)
        · intro _hex
          rfl
      · intro b2 hb2
        rw [← hfsb, hb] at hb2
        simp only [Option.some.injEq] at hb2
        rw [← hb2]

/-- C3 (witness): with a single stored fingerprint whose fuzzy hash differs
from the submission's in 2 of 64 positions and no stable/GPU data, layers
1–4 miss and the fuzzy layer matches. -/
theorem fuzzy_scan_selection_witness :
    (matchFingerprint
      ⟨[⟨0, ['v'], List.replicate 64 'a',
          'x' :: 'x' :: List.replicate 62 'b', none, none, 1, false⟩],
        [], [['v']], 1, 1⟩
      ⟨List.replicate 64 'c', List.replicate 64 'b', none, none, none, none,
        none⟩
      1000).1.matchType = MatchType.fuzzy := by
  have h := (fuzzy_scan_selection.2.1
    ⟨[⟨0, ['v'], List.replicate 64 'a',
        'x' :: 'x' :: List.replicate 62 'b', none, none, 1, false⟩],
      [], [['v']], 1, 1⟩
    ⟨List.replicate 64 'c', List.replicate 64 'b', none, none, none, none,
      none⟩
    1000 (by decide) (by decide) (by decide) (by decide)).1
  exact h.mpr (by decide)

/-- C5 (counterexample): a submission whose `fingerprint` is 64 copies of
`'z'` — not hex digits — passes the schema, so the engine does not reject
exactly the non-64-hex-digit submissions. -/
theorem fingerprintSchema_hex_counterexample :
    fingerprintSchemaAccepts
      ⟨List.replicate 64 'z', List.replicate 64 'a', none, none⟩ = true ∧
    isHex64 (List.replicate 64 'z') = false := by
  decide

/-- C5 (amended): the schema accepts a submission iff every supplied hash
field is a string of exactly 64 characters; hex-digit content is not
checked. -/
theorem fingerprintSchema_length_spec :
    ∀ s : RawSubmission,
    fingerprintSchemaAccepts s = true ↔
      (s.fingerprint.length = 64 ∧ s.fuzzyHash.length = 64 ∧
       (∀ h, s.stableHash = some h → h.length = 64) ∧
       (∀ h, s.gpuTimingHash = some h → h.length = 64)) := by
  rintro ⟨fp, fz, st, gp⟩
  cases st <;> cases gp <;>
    simp [fingerprintSchemaAccepts, and_assoc]

/-- C5 (witness): a well-formed all-`'a'` submission passes the schema. -/
theorem fingerprintSchema_length_spec_witness :
    fingerprintSchemaAccepts
      ⟨List.replicate 64 'a', List.replicate 64 'b',
        some (List.replicate 64 'c'), none⟩ = true :=
  (fingerprintSchema_length_spec _).mpr
    ⟨by decide, by decide, by rintro h ⟨rfl⟩; decide, by rintro h ⟨⟩⟩

/-- C2: for every match type, the adjusted confidence is `0.7 · base` when
the trust gate fails — which happens exactly for a fuzzy match with more
than 5 recent visits and crowd score below 0.2 — and otherwise
`min(1, base + score · multiplier)` rounded to 3 decimals, with multiplier
0.05 exact, 0.10 stable, 0.08 gpu, 0.15 fuzzy-stable, 0.20 fuzzy (0 new). -/
theorem applyMatchValidation_confidence :
    ∀ (sessions : List SessionRow) (visitorId : Str) (now : Nat)
      (baseConfidence : ℚ) (matchType : MatchType),
    (applyMatchValidation sessions visitorId matchType baseConfidence now).1 =
      if matchType = .fuzzy ∧
          (calculateCrowdBlendingScore sessions visitorId now).visitCount > 5 ∧
          (calculateCrowdBlendingScore sessions visitorId now).score < 0.2 then
        0.7 * baseConfidence
      else
        (⌊(min 1 (baseConfidence +
            (calculateCrowdBlendingScore sessions visitorId now).score *
              (match matchType with
               | .exact => 0.05
               | .stable => 0.10
               | .gpu => 0.08
               | .fuzzyStable => 0.15
               | .fuzzy => 0.20
               | .new => 0))) * 1000 + 1 / 2⌋ : ℚ) / 1000 := by
  intro sessions visitorId now baseConfidence matchType
  cases matchType
  case exact =>
    rw [if_neg (by rintro ⟨h, -⟩; exact absurd h (by decide))]
    simp [applyMatchValidation, shouldTrustMatch, getConfidenceBoost, round3,
      jsRound]
  case stable =>
    rw [if_neg (by rintro ⟨h, -⟩; exact absurd h (by decide))]
    simp [applyMatchValidation, shouldTrustMatch, getConfidenceBoost, round3,
      jsRound]
  case gpu =>
    rw [if_neg (by rintro ⟨h, -⟩; exact absurd h (by decide))]
    simp [applyMatchValidation, shouldTrustMatch, getConfidenceBoost, round3,
      jsRound]
  case fuzzyStable =>
    rw [if_neg (by rintro ⟨h, -⟩; exact absurd h (by decide))]
    simp [applyMatchValidation, shouldTrustMatch, getConfidenceBoost, round3,
      jsRound]
  case new =>
    rw [if_neg (by rintro ⟨h, -⟩; exact absurd h (by decide))]
    simp [applyMatchValidation, shouldTrustMatch, getConfidenceBoost, round3,
      jsRound, mul_zero]
  case fuzzy =>
    by_cases h5 : (calculateCrowdBlendingScore sessions visitorId now).visitCount ≤ 5
    · rw [if_neg (by rintro ⟨-, hgt, -⟩; omega)]
      simp [applyMatchValidation, shouldTrustMatch, getConfidenceBoost, round3,
        jsRound, h5]
    · by_cases hs : (0.2 : ℚ) ≤ (calculateCrowdBlendingScore sessions visitorId now).score
      · rw [if_neg (by rintro ⟨-, -, hlt⟩; exact absurd hs (not_le.mpr hlt))]
        simp [applyMatchValidation, shouldTrustMatch, getConfidenceBoost,
          round3, jsRound, h5, hs, GE.ge]
      · rw [if_pos ⟨rfl, by omega, not_le.mp hs⟩]
        simp [applyMatchValidation, shouldTrustMatch, getConfidenceBoost,
          round3, jsRound, h5, hs, GE.ge, mul_comm]

/-- C6 (counterexample): the claim fails in two places. For the visitor id
`test-visitor` the true signature is lowercase hex; changing one byte of it
to upper case (`234Bf65b7699c472`) still verifies as true, because Node's
hex decoding is case-insensitive. And `parseInt` accepts the non-numeric
timestamp `12abc` (numeric prefix), so `a.b.12abc` does not parse as
Malformed. -/
theorem token_roundtrip_counterexample :
    verifyVisitorId "test-visitor".toList "234Bf65b7699c472".toList = true
    ∧ "234Bf65b7699c472".toList ≠ signVisitorId "test-visitor".toList
    ∧ ((List.zip "234Bf65b7699c472".toList
        (signVisitorId "test-visitor".toList)).countP
          (fun p => p.1 ≠ p.2)) = 1
    ∧ parseSignedVisitorId "a.b.12abc".toList ≠ none := by
  refine ⟨by decide, by decide, by decide, by decide⟩

/-- C6 (amended): for every nonempty dot-free visitor id, parsing the token
produced by signing yields the id, signature and timestamp back with
`valid = true`; `verify(v, s)` is true exactly when `s` has length 16 and
hex-decodes to the same bytes as the true signature (so any single-byte
change that alters the decoded bytes makes it false, but a letter-case
change survives); and parsing returns Malformed (null) exactly unless the
token has three dot-separated parts, nonempty id and signature, and a
timestamp with a parseable integer prefix. -/
theorem token_roundtrip_spec :
    ∀ (v : Str) (now : Nat), v ≠ [] → '.' ∉ v →
    (parseSignedVisitorId (createSignedVisitorId v now) =
       some ⟨v, signVisitorId v, (now : Int), true⟩)
    ∧ (∀ s : Str, verifyVisitorId v s = true ↔
        (s.length = 16 ∧
          hexDecodePairs s = hexDecodePairs (signVisitorId v)))
    ∧ (∀ t : Str, parseSignedVisitorId t = none ↔
        ¬ ∃ vd sg ts k, splitOnChar '.' t = [vd, sg, ts] ∧ vd ≠ [] ∧
          sg ≠ [] ∧ parseIntBase10 ts = some k) := by
  intro v now hv hdot
  refine ⟨parse_createSigned now hv hdot, ?_, fun t => parse_none_iff t⟩
  intro s
  rw [verify_true_iff]
  simp [hv]

/-- C6 (witness): the round trip at `v = "abc"`, `now = 1700000000000`. -/
theorem token_roundtrip_spec_witness :
    parseSignedVisitorId (createSignedVisitorId "abc".toList 1700000000000) =
      some ⟨"abc".toList, signVisitorId "abc".toList,
        (1700000000000 : Int), true⟩ :=
  (token_roundtrip_spec "abc".toList 1700000000000 (by decide) (by decide)).1

/-- C7: a signature-verified (and, as the claim hypothesizes, non-expired)
token's visitor id overrides the fingerprint-matched one, with a refresh
exactly when the token's age exceeds half the 365-day max age; a malformed
or invalid-signature token is treated as absent — the fingerprint-matched
visitor id is returned with a fresh signed token — and the request never
fails (the function is total by construction). -/
theorem linkPersistentIdentity_spec :
    ∀ (tok : Str) (fpVid : Str) (now : Nat),
    (∀ p : ParsedId, parseSignedVisitorId tok = some p → p.valid = true →
      (now : ℤ) - p.createdAt ≤ 31536000000 →
      (linkPersistentIdentity (some tok) fpVid now).visitorId = p.visitorId
      ∧ (linkPersistentIdentity (some tok) fpVid now).persistentIdValid = true
      ∧ ((linkPersistentIdentity (some tok) fpVid now).shouldUpdatePersistent
            = true ↔
          ((((now : ℤ) - p.createdAt : ℤ) : ℚ) > IDENTITY_MAX_AGE / 2))
      ∧ ((linkPersistentIdentity (some tok) fpVid now).shouldUpdatePersistent
            = true →
          (linkPersistentIdentity (some tok) fpVid now).newPersistentId =
            some (createSignedVisitorId p.visitorId now)))
    ∧ ((parseSignedVisitorId tok = none ∨
        ∃ p : ParsedId, parseSignedVisitorId tok = some p ∧ p.valid = false) →
      (linkPersistentIdentity (some tok) fpVid now).visitorId = fpVid
      ∧ (linkPersistentIdentity (some tok) fpVid now).persistentIdValid = false
      ∧ (linkPersistentIdentity (some tok) fpVid now).shouldUpdatePersistent
          = true
      ∧ (linkPersistentIdentity (some tok) fpVid now).newPersistentId =
          some (createSignedVisitorId fpVid now)) := by
  intro tok fpVid now
  constructor
  · intro p hp hval hage
    obtain ⟨hvne, -, htE⟩ := parse_some_props hp
    have hvE : p.visitorId.isEmpty = false := by
      cases hV : p.visitorId
      · exact absurd hV hvne
      · rfl
    have hexp :
        decide (((((now : ℤ) - p.createdAt : ℤ) : ℚ)) > IDENTITY_MAX_AGE)
          = false := by
      apply decide_eq_false
      rw [not_lt, IDENTITY_MAX_AGE]
      have : ((now : ℤ) - p.createdAt : ℚ) ≤ ((31536000000 : ℤ) : ℚ) := by
        exact_mod_cast hage
      push_cast at this ⊢
      linarith
    have hvalidation :
        validatePersistentIdentity (some tok) now IDENTITY_MAX_AGE =
        ⟨true, some p.visitorId,
          decide (((((now : ℤ) - p.createdAt : ℤ) : ℚ))
            > IDENTITY_MAX_AGE / 2),
          if decide (((((now : ℤ) - p.createdAt : ℤ) : ℚ))
              > IDENTITY_MAX_AGE / 2) = true
          then some (createSignedVisitorId p.visitorId now) else none⟩ := by
      simp [validatePersistentIdentity, hp, hval, htE, hexp]
      intro h
      have h0 : (0 : ℚ) ≤ IDENTITY_MAX_AGE := by norm_num [IDENTITY_MAX_AGE]
      linarith
    unfold linkPersistentIdentity
    rw [hvalidation]
    simp [hvE]
    intro h
    linarith
  · intro hbad
    have hvalidation :
        validatePersistentIdentity (some tok) now IDENTITY_MAX_AGE =
          ⟨false, none, false, none⟩ := by
      unfold validatePersistentIdentity
      by_cases htE : tok.isEmpty = true
      · simp [htE]
      · simp only [htE, Bool.false_eq_true, if_false]
        rcases hbad with hnone | ⟨p, hp, hpval⟩
        · simp [hnone, htE]
        · simp [hp, hpval, htE]
    unfold linkPersistentIdentity
    rw [hvalidation]
    simp

/-- C7 (witness): a freshly signed token for `abc`, aged 100 ms, overrides
the fingerprint-matched visitor `xyz`. -/
theorem linkPersistentIdentity_spec_witness :
    (linkPersistentIdentity (some (createSignedVisitorId "abc".toList 100))
        "xyz".toList 200).visitorId = "abc".toList :=
  ((linkPersistentIdentity_spec (createSignedVisitorId "abc".toList 100)
      "xyz".toList 200).1
    ⟨"abc".toList, signVisitorId "abc".toList, 100, true⟩
    (by decide) (by decide) (by decide)).1

/-- C10: `verifyVisitorId` short-circuits to `false` on an empty visitor id,
an empty signature or a signature whose length is not 16; a buffer-length
mismatch of the hex-decoded signatures (the thrown error) is caught and
yields `false`; and the comparison succeeds only for a well-formed
16-character signature decoding to the expected bytes. -/
theorem verifyVisitorId_guards :
    ∀ (v s : Str),
    ((v = [] ∨ s = [] ∨ s.length ≠ 16) → verifyVisitorId v s = false)
    ∧ ((hexDecodePairs s).length ≠ (hexDecodePairs (signVisitorId v)).length →
        verifyVisitorId v s = false)
    ∧ (verifyVisitorId v s = true →
        v ≠ [] ∧ s.length = 16 ∧
          hexDecodePairs s = hexDecodePairs (signVisitorId v)) := by
  intro v s
  refine ⟨?_, ?_, ?_⟩
  · rintro (rfl | rfl | h)
    · simp [verifyVisitorId]
    · simp [verifyVisitorId]
    · simp [verifyVisitorId, SIGNATURE_LENGTH, h]
  · intro hlen
    by_cases hguard :
        (v.isEmpty || s.isEmpty || s.length != SIGNATURE_LENGTH) = true
    · simp [verifyVisitorId, hguard]
    · simp [verifyVisitorId, hguard, timingSafeEqual, hlen]
  · intro htrue
    by_cases hguard :
        (v.isEmpty || s.isEmpty || s.length != SIGNATURE_LENGTH) = true
    · simp [verifyVisitorId, hguard] at htrue
    · have hg := hguard
      simp only [Bool.or_eq_true, not_or, Bool.not_eq_true, bne_iff_ne,
        ne_eq, not_not, List.isEmpty_eq_true] at hg
      refine ⟨?_, ?_, ?_⟩
      · exact hg.1.1
      · exact hg.2
      · by_cases hlen :
            (hexDecodePairs s).length ≠ (hexDecodePairs (signVisitorId v)).length
        · simp [verifyVisitorId, hguard, timingSafeEqual, hlen] at htrue
        · simp only [ne_eq, not_not] at hlen
          simp [verifyVisitorId, hguard, timingSafeEqual, hlen] at htrue
          exact htrue

/-- C10 (witness): an empty visitor id verifies as `false`. -/
theorem verifyVisitorId_guards_witness :
    verifyVisitorId [] ['a'] = false :=
  (verifyVisitorId_guards [] ['a']).1 (Or.inl rfl)

end Fingerprint
